import Mathlib

/-!
Verification of the tool-call extraction, dispatch and bounded-retry
conversation loop of the gemma function-calling demo.

The development shallowly embeds the two implementations of the loop:
the MCP chat client (app/mcp_client.py, class MCPOllamaClient) and the
standalone example (examples/simple_function_calling.py).  The language
model backend (ollama chat) and the tool transport (the MCP stdio
session, resp. the registered python functions) are external
collaborators and are modelled as oracles; everything the repository
itself computes — the marker search, the brace scan, the JSON slice,
the loop's history bookkeeping, the dispatch error wrapping — is
embedded directly from the source.

`json.loads` is the python standard library; it is modelled here by a
small recursive-descent parser over the sublanguage the call protocol
uses: objects with string keys and string or object values, without
escape sequences.  On that sublanguage the model agrees with
`json.loads` (including: whitespace skipping, rejection of raw control
characters inside strings, rejection of trailing garbage, and
last-occurrence-wins duplicate keys); inputs outside the sublanguage are
rejected by the model, which is a documented restriction, not a claim
about the python behaviour there.
-/

/-! ### Characters

Brace, quote and friends as named constants. -/

def lbraceC : Char := Char.ofNat 123
def rbraceC : Char := Char.ofNat 125
def quoteC : Char := Char.ofNat 34
def backslashC : Char := Char.ofNat 92
def colonC : Char := Char.ofNat 58
def commaC : Char := Char.ofNat 44
def spaceC : Char := Char.ofNat 32

/-- JSON whitespace, as accepted by `json.loads` between tokens. -/
def isWsC (c : Char) : Bool :=
  c.toNat = 32 || c.toNat = 9 || c.toNat = 10 || c.toNat = 13

/-! ### JSON values

The sublanguage of JSON the call protocol uses: strings and objects. -/

mutual
inductive JVal : Type where
  | jstr (s : String) : JVal
  | jobj (fs : JFields) : JVal
deriving DecidableEq
inductive JFields : Type where
  | fnil : JFields
  | fcons (k : String) (v : JVal) (fs : JFields) : JFields
deriving DecidableEq
end

/-- Python truthiness of a parsed value: the empty dict and the empty
string are falsy, everything else in the sublanguage is truthy.  The
MCP loop's `if not tool_call:` test routes on this. -/
def JVal.falsy : JVal → Bool
  | .jstr s => s = ""
  | .jobj .fnil => true
  | .jobj (.fcons _ _ _) => false

/-- Python dict lookup on parsed fields: with duplicate keys `json.loads`
keeps the last occurrence, so later fields win. -/
def lookupF : JFields → String → Option JVal
  | .fnil, _ => none
  | .fcons k v fs, key =>
      match lookupF fs key with
      | some r => some r
      | none => if k = key then some v else none

/-! ### Rendering

A canonical serialization of the sublanguage, in the shape the system
prompt documents: a space after each colon, comma-space between fields. -/

def renderStr (s : String) : List Char :=
  quoteC :: (s.data ++ [quoteC])

mutual
def renderJ : JVal → List Char
  | .jstr s => renderStr s
  | .jobj fs => lbraceC :: (renderFs fs ++ [rbraceC])
def renderFs : JFields → List Char
  | .fnil => []
  | .fcons k v fs => renderStr k ++ colonC :: spaceC :: (renderJ v ++ renderSepFs fs)
def renderSepFs : JFields → List Char
  | .fnil => []
  | .fcons k v fs =>
      commaC :: spaceC :: (renderStr k ++ colonC :: spaceC :: (renderJ v ++ renderSepFs fs))
end

/-! ### The model of json.loads -/

def skipWs : List Char → List Char
  | [] => []
  | c :: cs => if isWsC c then skipWs cs else c :: cs

/-- Parse the body of a string after the opening quote.  Escape sequences
are outside the modelled sublanguage; raw control characters are rejected
exactly as `json.loads` (strict mode) rejects them. -/
def parseStrBody : List Char → Option (List Char × List Char)
  | [] => none
  | c :: cs =>
      if c = quoteC then some ([], cs)
      else if c = backslashC then none
      else if c.toNat < 32 then none
      else (parseStrBody cs).map (fun p => (c :: p.1, p.2))

mutual
def parseJ : Nat → List Char → Option (JVal × List Char)
  | 0, _ => none
  | fuel + 1, cs =>
      match skipWs cs with
      | [] => none
      | c :: r =>
          if c = quoteC then
            (parseStrBody r).map (fun p => (JVal.jstr (String.mk p.1), p.2))
          else if c = lbraceC then
            match skipWs r with
            | [] => none
            | d :: r2 =>
                if d = rbraceC then some (JVal.jobj .fnil, r2)
                else
                  (parseFs fuel (d :: r2)).map (fun p => (JVal.jobj p.1, p.2))
          else none
def parseFs : Nat → List Char → Option (JFields × List Char)
  | 0, _ => none
  | fuel + 1, cs =>
      match skipWs cs with
      | [] => none
      | c :: r =>
          if c = quoteC then
            match parseStrBody r with
            | none => none
            | some (k, r1) =>
                match skipWs r1 with
                | [] => none
                | c2 :: r2 =>
                    if c2 = colonC then
                      match parseJ fuel r2 with
                      | none => none
                      | some (v, r3) =>
                          match skipWs r3 with
                          | [] => none
                          | c3 :: r4 =>
                              if c3 = commaC then
                                (parseFs fuel r4).map
                                  (fun p => (JFields.fcons (String.mk k) v p.1, p.2))
                              else if c3 = rbraceC then
                                some (JFields.fcons (String.mk k) v .fnil, r4)
                              else none
                    else none
          else none
end

/-- Model of `json.loads` on a character slice: one value, optionally
surrounded by whitespace, nothing else. -/
def jsonLoads (cs : List Char) : Option JVal :=
  match parseJ (cs.length + 1) cs with
  | none => none
  | some (v, r) => if skipWs r = [] then some v else none

/-! ### String scanning primitives shared by both extractors -/

/-- Python `text.find(needle)` restricted to found/not-found: the first
index at which `needle` occurs, if any. -/
def findSub (needle : List Char) : List Char → Option Nat
  | [] => if needle.isPrefixOf ([] : List Char) then some 0 else none
  | c :: cs =>
      if needle.isPrefixOf (c :: cs) then some 0
      else (findSub needle cs).map (fun n => n + 1)

/-- Python `text.find(ch, start)` relative to the dropped prefix. -/
def findChar (ch : Char) : List Char → Option Nat
  | [] => none
  | c :: cs => if c = ch then some 0 else (findChar ch cs).map (fun n => n + 1)

/-- Python `needle in text`. -/
def containsSub (needle hay : List Char) : Bool :=
  (findSub needle hay).isSome

/-- The brace-counting scan both extractors run from the marker position:
the count starts at `count`, goes up at every open brace, down at every
close brace, and the scan reports the index of the close brace at which
the count first returns to zero, if that ever happens. -/
def scanBal (count : Int) : List Char → Option Nat
  | [] => none
  | c :: rest =>
      if c = lbraceC then (scanBal (count + 1) rest).map (fun n => n + 1)
      else if c = rbraceC then
        if count - 1 = 0 then some 0
        else (scanBal (count - 1) rest).map (fun n => n + 1)
      else (scanBal count rest).map (fun n => n + 1)

/-- The fixed marker substring both extractors search for. -/
def markerL : List Char := "\x7b\"tool_call\":".data

/-! ### Messages and loop results -/

/-- One conversation message, a role-tagged content string. -/
structure Msg where
  role : String
  content : String
deriving DecidableEq

/-- The final state of one MCP chat invocation: the returned answer, the
conversation history at return time, and the number of completion-client
invocations performed.  No exception ever escapes this loop (its body is
wrapped in a catch-all), so the answer channel is a plain string. -/
structure LoopRes where
  answer : String
  history : List Msg
  calls : Nat
deriving DecidableEq

deriving instance DecidableEq for Except

/-- The final state of one example-loop invocation.  Only the chat call
is wrapped in try/except there, so failures elsewhere in the body escape
to the caller: outcome `.error` models an uncaught python exception. -/
structure SimpleRes where
  outcome : Except String String
  history : List Msg
  calls : Nat
deriving DecidableEq

/-- A completion-client oracle: round number to assistant reply, or to
the text of the exception the chat call raised. -/
def ModelOracle : Type := Nat → Except String String

/-- A tool-transport oracle for the MCP client: the name and arguments
values the loop passes (any JSON values) to the result text of the MCP
call, or to the text of the exception it raised. -/
def ToolOracle : Type := JVal → JVal → Except String String

namespace MCPClient

/-- Embeds MCPOllamaClient.extract_tool_call.  From the first marker
occurrence: remember the first close brace after it (python
text.find, -1 when absent), overwrite it with the balance point of the
brace scan when one exists, slice, json.loads, and index "tool_call".
json decode errors and missing keys are caught and become no-call. -/
def extract_tool_call (text : String) : Option JVal :=
  match findSub markerL text.data with
  | none => none
  | some start =>
      match findChar rbraceC (text.data.drop start) with
      | none => none
      | some e0 =>
          match jsonLoads ((text.data.drop start).take
              (((scanBal 0 (text.data.drop start)).getD e0) + 1)) with
          | none => none
          | some (.jobj fs) => lookupF fs "tool_call"
          | some (.jstr _) => none

/-- Embeds MCPOllamaClient.call_tool: the stdio session round-trip is
the oracle; any exception it raises is caught and wrapped as a failure
dictionary, a success becomes the stringified content. -/
def call_tool (toolOr : ToolOracle) (nameV argsV : JVal) : Except String String :=
  toolOr nameV argsV

/-- The f-string building the synthesized tool-result message content in
chat_with_tools (line 124). -/
def foldToolResult (tr : Except String String) : String :=
  "Tool result: " ++ (match tr with
    | .ok s => s
    | .error e => "Error: " ++ e)

/-- str(KeyError(k)) in python is the repr of the key, hence quoted. -/
def keyErrorText (k : String) : String := "\x27" ++ k ++ "\x27"

/-- The TypeError message python raises for subscripting a string with a
string key; the loop's catch-all turns it into a returned error string.
The exact wording varies across python versions; only its occurrence
matters here. -/
def strIndexErrText : String := "string indices must be integers"

/-- Python `value[k]`: field lookup on a dict, KeyError text when the
key is absent, TypeError text when the value is a string. -/
def pyGetItem (v : JVal) (k : String) : Except String JVal :=
  match v with
  | .jobj fs =>
      match lookupF fs k with
      | some x => .ok x
      | none => .error (keyErrorText k)
  | .jstr _ => .error strIndexErrText

/-- The fixed message returned when the round budget is exhausted. -/
def exhaustedMsg : String :=
  "Sorry, I couldn\x27t complete that request after several attempts."

/-- One tool line of the system prompt: "- name: description". -/
def toolLine (t : String × String) : String := "- " ++ t.1 ++ ": " ++ t.2

/-- Embeds MCPOllamaClient.create_system_prompt over the available-tools
mapping (name, description). -/
def create_system_prompt (tools : List (String × String)) : String :=
  "You have access to these tools:\n"
    ++ String.intercalate "\n" (tools.map toolLine)
    ++ "\n\nWhen you need to use a tool, respond with a JSON object in this format:\n"
    ++ "\x7b\"tool_call\": \x7b\"name\": \"tool_name\", \"arguments\": \x7b...\x7d\x7d\x7d\n\n"
    ++ "After calling a tool, use the result to provide a helpful response to the user.\n"
    ++ "If you don\x27t need to use any tools, respond normally without the JSON format.\n"

/-- The body of the `for attempt in range(MAX_LOOPS)` loop in
chat_with_tools, with the remaining iteration budget as fuel.  The whole
body runs inside `try`, so an exception anywhere in it — the chat call,
or the `tool_call["name"]` / `tool_call["arguments"]` subscripts — is
returned as "Error: " + str(e).  The `if not tool_call:` test is a
python truthiness test, so both no call found and a falsy extracted
value (an empty call object, or an empty string) return the reply as
the final answer.  A call round appends the assistant reply and the
synthesized tool-result message, then continues. -/
def chatLoop (model : ModelOracle) (toolOr : ToolOracle) :
    Nat → Nat → List Msg → Nat → LoopRes
  | 0, _, hist, calls => ⟨exhaustedMsg, hist, calls⟩
  | fuel + 1, round, hist, calls =>
      match model round with
      | .error e => ⟨"Error: " ++ e, hist, calls + 1⟩
      | .ok reply =>
          match extract_tool_call reply with
          | none => ⟨reply, hist, calls + 1⟩
          | some tc =>
              if tc.falsy then ⟨reply, hist, calls + 1⟩
              else
              match pyGetItem tc "name" with
              | .error e => ⟨"Error: " ++ e, hist, calls + 1⟩
              | .ok nameV =>
                  match pyGetItem tc "arguments" with
                  | .error e => ⟨"Error: " ++ e, hist, calls + 1⟩
                  | .ok argsV =>
                      let tr := call_tool toolOr nameV argsV
                      chatLoop model toolOr fuel (round + 1)
                        (hist ++ [⟨"assistant", reply⟩, ⟨"user", foldToolResult tr⟩])
                        (calls + 1)

/-- Embeds MCPOllamaClient.chat_with_tools: empty available-tools short
circuits before any history or client contact; otherwise the history is
seeded with the system prompt and the user message and the bounded loop
runs.  `maxLoops` is the configured MAX_LOOPS constant. -/
def chat_with_tools (tools : List (String × String)) (maxLoops : Nat)
    (model : ModelOracle) (toolOr : ToolOracle) (userMessage : String) : LoopRes :=
  if tools.isEmpty then ⟨"Error: No tools available", [], 0⟩
  else
    chatLoop model toolOr maxLoops 0
      [⟨"system", create_system_prompt tools⟩, ⟨"user", userMessage⟩] 0

end MCPClient

namespace SimpleFC

/-- Embeds extract_tool_call of the example.  Same marker search and
brace scan, but the slice end starts at the marker itself (so a scan
that never balances slices the single character at the marker, which
never parses), and the call value is read with dict.get (no KeyError). -/
def extract_tool_call (text : String) : Option JVal :=
  match findSub markerL text.data with
  | none => none
  | some start =>
      match jsonLoads ((text.data.drop start).take
          (((scanBal 0 (text.data.drop start)).getD 0) + 1)) with
      | none => none
      | some (.jobj fs) => lookupF fs "tool_call"
      | some (.jstr _) => none

/-- An executable oracle for the registered python tool functions: name
and call arguments to the returned text, or to the text of the exception
the call raised (including bad-argument TypeErrors, which arise inside
the try block of execute_tool). -/
def ExecOracle : Type := String → JVal → Except String String

/-- The TypeError text for using an unhashable value as a dict key, the
membership test `tool_name not in AVAILABLE_TOOLS` raises it outside
any try block. -/
def unhashableErrText : String := "unhashable type: \x27dict\x27"

/-- Python str() of the extracted name value, as interpolated into the
unknown-tool message: None when the field was absent; a dict rendering
is unreachable in the unknown branch (membership raises first). -/
def pyStrName : Option JVal → String
  | none => "None"
  | some (.jstr s) => s
  | some (.jobj _) => ""

/-- Embeds execute_tool.  An unregistered name (including the None of a
missing field) yields the unknown-tool error string; a registered tool
call has its exceptions caught and wrapped; a non-hashable name value
raises out of the function (outcome .error). -/
def execute_tool (registry : List String) (execOr : ExecOracle)
    (toolName : Option JVal) (args : JVal) : Except String String :=
  match toolName with
  | some (.jobj _) => .error unhashableErrText
  | some (.jstr n) =>
      if n ∈ registry then
        match execOr n args with
        | .ok r => .ok r
        | .error e => .ok ("Error executing " ++ n ++ ": " ++ e)
      else .ok ("Error: Unknown tool \x27" ++ n ++ "\x27")
  | none => .ok ("Error: Unknown tool \x27None\x27")

end SimpleFC

namespace SimpleFC

/-- The fixed message returned when max_iterations is exhausted. -/
def exhaustedMsg : String := "Maximum iterations reached without final response."

/-- Embeds create_system_prompt of the example over pre-rendered tool
description lines (the per-tool "- name(params): description" strings;
the registry's descriptions and parameter schemas are data the claims
never inspect, so the rendered lines are taken as input). -/
def create_system_prompt (toolLines : List String) : String :=
  "You have access to these tools:\n"
    ++ String.intercalate "\n" toolLines
    ++ "\n\nWhen you need to use a tool, respond with a JSON object in this exact format:\n"
    ++ "\x7b\"tool_call\": \x7b\"name\": \"tool_name\", \"arguments\": \x7b\"param1\": \"value1\", \"param2\": \"value2\"\x7d\x7d\x7d\n"
    ++ "\nExamples:\n"
    ++ "- To get time: \x7b\"tool_call\": \x7b\"name\": \"get_current_time\", \"arguments\": \x7b\"timezone\": \"JST\"\x7d\x7d\x7d\n"
    ++ "- To calculate: \x7b\"tool_call\": \x7b\"name\": \"calculate\", \"arguments\": \x7b\"expression\": \"15 * 3\"\x7d\x7d\x7d\n"
    ++ "- To get weather: \x7b\"tool_call\": \x7b\"name\": \"get_weather\", \"arguments\": \x7b\"city\": \"Tokyo\"\x7d\x7d\x7d\n"
    ++ "\nAfter calling a tool, I\x27ll provide the result and you should give a helpful response to the user.\n"
    ++ "If you don\x27t need to use any tools, respond normally without JSON.\n"

/-- The body of the `for iteration in range(max_iterations)` loop of
chat_with_tools in the example.  Only the chat call sits in a try block:
its exception is returned as a string; an extracted call value that is
not a dict raises AttributeError out of the whole function (`.get` on a
str), and a non-hashable name value raises TypeError out of
execute_tool; both escape as outcome `.error`.  A call round appends
the assistant reply and the tool-result message and continues. -/
def chatLoop (model : ModelOracle) (registry : List String) (execOr : ExecOracle) :
    Nat → Nat → List Msg → Nat → SimpleRes
  | 0, _, hist, calls => ⟨.ok exhaustedMsg, hist, calls⟩
  | fuel + 1, round, hist, calls =>
      match model round with
      | .error e => ⟨.ok ("Error communicating with model: " ++ e), hist, calls + 1⟩
      | .ok reply =>
          match extract_tool_call reply with
          | none => ⟨.ok reply, hist, calls + 1⟩
          | some (.jstr _) =>
              ⟨.error "\x27str\x27 object has no attribute \x27get\x27", hist, calls + 1⟩
          | some (.jobj fs) =>
              let toolName := lookupF fs "name"
              let args := (lookupF fs "arguments").getD (.jobj .fnil)
              match execute_tool registry execOr toolName args with
              | .error e => ⟨.error e, hist, calls + 1⟩
              | .ok tr =>
                  chatLoop model registry execOr fuel (round + 1)
                    (hist ++ [⟨"assistant", reply⟩, ⟨"user", "Tool result: " ++ tr⟩])
                    (calls + 1)

/-- Embeds chat_with_tools of the example: seed the conversation with
the system prompt and the user message, then run the bounded loop.
`maxIterations` defaults to 3 at the python call site. -/
def chat_with_tools (toolLines : List String) (registry : List String)
    (execOr : ExecOracle) (model : ModelOracle) (userMessage : String)
    (maxIterations : Nat) : SimpleRes :=
  chatLoop model registry execOr maxIterations 0
    [⟨"system", create_system_prompt toolLines⟩, ⟨"user", userMessage⟩] 0

/-- The names registered in AVAILABLE_TOOLS, in registration order. -/
def availableToolNames : List String :=
  ["get_current_time", "calculate", "get_weather"]

end SimpleFC

/-! ### Well-behaved call data

A character is tame when it can sit inside a JSON string of the call
protocol without interfering with any of the three scanners involved:
printable (json.loads rejects raw control characters), not a quote or
backslash (no string escapes in the sublanguage), and not a brace (the
extractors count braces obliviously to string boundaries). -/

def tameChar (c : Char) : Bool :=
  decide (32 ≤ c.toNat) && c ≠ quoteC && c ≠ backslashC && c ≠ lbraceC && c ≠ rbraceC

def tameStr (s : String) : Bool := s.data.all tameChar

mutual
def tameJ : JVal → Bool
  | .jstr s => tameStr s
  | .jobj fs => tameFs fs
def tameFs : JFields → Bool
  | .fnil => true
  | .fcons k v fs => tameStr k && tameJ v && tameFs fs
end

/-! The parser consumes one unit of fuel per nesting step; `sizeJ` bounds
the fuel a value's rendering needs. -/

mutual
def sizeJ : JVal → Nat
  | .jstr _ => 1
  | .jobj fs => sizeF fs + 1
def sizeF : JFields → Nat
  | .fnil => 1
  | .fcons _ v fs => sizeJ v + sizeF fs + 1
end

theorem sizeJ_pos (v : JVal) : 1 ≤ sizeJ v := by
  cases v <;> simp [sizeJ]

theorem sizeF_pos (fs : JFields) : 1 ≤ sizeF fs := by
  cases fs <;> simp [sizeF]

mutual
theorem sizeJ_le_renderJ : ∀ v : JVal, sizeJ v ≤ (renderJ v).length
  | .jstr s => by simp [sizeJ, renderJ, renderStr]
  | .jobj fs => by
      have h := sizeF_le_renderFs fs
      simp only [sizeJ, renderJ, List.length_cons, List.length_append,
        List.length_singleton]
      omega
theorem sizeF_le_renderFs : ∀ fs : JFields, sizeF fs ≤ (renderFs fs).length + 1
  | .fnil => by simp [sizeF, renderFs]
  | .fcons k v fs => by
      have h1 := sizeJ_le_renderJ v
      have h2 := sizeF_le_renderSepFs fs
      simp only [sizeF, renderFs, renderStr, List.length_append, List.length_cons,
        List.length_singleton]
      omega
theorem sizeF_le_renderSepFs : ∀ fs : JFields, sizeF fs ≤ (renderSepFs fs).length + 1
  | .fnil => by simp [sizeF, sizeF_pos, renderSepFs]
  | .fcons k v fs => by
      have h1 := sizeJ_le_renderJ v
      have h2 := sizeF_le_renderSepFs fs
      simp only [sizeF, renderSepFs, renderStr, List.length_append, List.length_cons,
        List.length_singleton]
      omega
end

/-! ### Scanner unfolding lemmas -/

theorem skipWs_not_ws {c : Char} (cs : List Char) (h : isWsC c = false) :
    skipWs (c :: cs) = c :: cs := by
  simp [skipWs, h]

theorem skipWs_space (cs : List Char) : skipWs (spaceC :: cs) = skipWs cs := by
  have : isWsC spaceC = true := by decide
  simp [skipWs, this]

theorem parseJ_space (fuel : Nat) (cs : List Char) :
    parseJ fuel (spaceC :: cs) = parseJ fuel cs := by
  cases fuel with
  | zero => rfl
  | succ n => simp only [parseJ, skipWs_space]

theorem parseFs_space (fuel : Nat) (cs : List Char) :
    parseFs fuel (spaceC :: cs) = parseFs fuel cs := by
  cases fuel with
  | zero => rfl
  | succ n => simp only [parseFs, skipWs_space]

/-- A tame string body parses back exactly, stopping at the closing
quote. -/
theorem parseStrBody_append (s : List Char) (hs : ∀ c ∈ s, tameChar c = true)
    (rest : List Char) : parseStrBody (s ++ quoteC :: rest) = some (s, rest) := by
  induction s with
  | nil =>
      simp [parseStrBody]
  | cons c cs ih =>
      have hc : tameChar c = true := hs c (by simp)
      simp only [tameChar, Bool.and_eq_true, decide_eq_true_eq] at hc
      have hq : ¬ c = quoteC := by simpa using hc.1.1.1.2
      have hb : ¬ c = backslashC := by simpa using hc.1.1.2
      have hn : ¬ c.toNat < 32 := by omega
      have ih2 := ih (fun x hx => hs x (by simp [hx]))
      simp [List.cons_append, parseStrBody, if_neg hq, if_neg hb, if_neg hn, ih2]

theorem strMk_data (s : String) : String.mk s.data = s := rfl

theorem renderSepFs_cons (k : String) (v : JVal) (fs : JFields) :
    renderSepFs (.fcons k v fs) = commaC :: spaceC :: renderFs (.fcons k v fs) := by
  simp [renderSepFs, renderFs]

/-! ### The codec round trip

On tame values the json.loads model inverts the renderer, consuming
exactly the rendered characters. -/

mutual
theorem parseJ_renderJ : ∀ (fuel : Nat) (v : JVal), tameJ v = true → sizeJ v ≤ fuel →
    ∀ rest : List Char, parseJ fuel (renderJ v ++ rest) = some (v, rest)
  | 0, v, _, hsz, _ => absurd hsz (by have := sizeJ_pos v; omega)
  | fuel + 1, .jstr s, ht, _, rest => by
      have hws : isWsC quoteC = false := by decide
      have htame : ∀ c ∈ s.data, tameChar c = true := by
        simpa [tameJ, tameStr, List.all_eq_true] using ht
      have harg : renderJ (.jstr s) ++ rest = quoteC :: (s.data ++ quoteC :: rest) := by
        simp [renderJ, renderStr]
      rw [harg]
      simp [parseJ, skipWs_not_ws _ hws, parseStrBody_append s.data htame rest,
        strMk_data]
  | fuel + 1, .jobj .fnil, _, _, rest => by
      have hws : isWsC lbraceC = false := by decide
      have hws2 : isWsC rbraceC = false := by decide
      have hne : ¬ lbraceC = quoteC := by decide
      have harg : renderJ (.jobj .fnil) ++ rest = lbraceC :: rbraceC :: rest := by
        simp [renderJ, renderFs]
      rw [harg]
      simp [parseJ, skipWs_not_ws _ hws, skipWs_not_ws _ hws2, hne]
  | fuel + 1, .jobj (.fcons k v fs), ht, hsz, rest => by
      have hws : isWsC lbraceC = false := by decide
      have hws2 : isWsC quoteC = false := by decide
      have hne : ¬ lbraceC = quoteC := by decide
      have hne2 : ¬ quoteC = rbraceC := by decide
      have hfs : parseFs fuel (renderFs (.fcons k v fs) ++ rbraceC :: rest)
          = some (JFields.fcons k v fs, rest) := by
        refine parseFs_renderFs fuel k v fs ?_ ?_ rest
        · simpa [tameJ] using ht
        · have := sizeJ_pos v
          simp only [sizeJ] at hsz
          omega
      have harg : renderJ (.jobj (.fcons k v fs)) ++ rest
          = lbraceC :: (renderFs (.fcons k v fs) ++ rbraceC :: rest) := by
        simp [renderJ]
      have hhead : renderFs (.fcons k v fs) ++ rbraceC :: rest
          = quoteC :: ((k.data ++ [quoteC])
              ++ colonC :: spaceC :: (renderJ v ++ renderSepFs fs) ++ rbraceC :: rest) := by
        simp [renderFs, renderStr]
      rw [harg]
      simp only [parseJ, skipWs_not_ws _ hws, if_neg hne, if_pos rfl]
      rw [hhead]
      simp only [skipWs_not_ws _ hws2, if_neg hne2]
      rw [← hhead, hfs]
      rfl
theorem parseFs_renderFs : ∀ (fuel : Nat) (k : String) (v : JVal) (fs : JFields),
    tameFs (.fcons k v fs) = true → sizeF (.fcons k v fs) ≤ fuel →
    ∀ rest : List Char,
      parseFs fuel (renderFs (.fcons k v fs) ++ rbraceC :: rest)
        = some (JFields.fcons k v fs, rest)
  | 0, k, v, fs, _, hsz, _ => absurd hsz (by have := sizeF_pos (.fcons k v fs); omega)
  | fuel + 1, k, v, fs, ht, hsz, rest => by
      have hws : isWsC quoteC = false := by decide
      have hws2 : isWsC colonC = false := by decide
      have hws3 : isWsC rbraceC = false := by decide
      have hws4 : isWsC commaC = false := by decide
      obtain ⟨⟨htk, htv⟩, htfs⟩ :
          (tameStr k = true ∧ tameJ v = true) ∧ tameFs fs = true := by
        simpa [tameFs, Bool.and_eq_true] using ht
      have htame : ∀ c ∈ k.data, tameChar c = true := by
        simpa [tameStr, List.all_eq_true] using htk
      have hfuelv : sizeJ v ≤ fuel := by
        have := sizeF_pos fs
        simp only [sizeF] at hsz
        omega
      have hfuelfs : sizeF fs ≤ fuel := by
        have := sizeJ_pos v
        simp only [sizeF] at hsz
        omega
      have harg : renderFs (.fcons k v fs) ++ rbraceC :: rest
          = quoteC :: (k.data ++ quoteC ::
              (colonC :: spaceC :: (renderJ v ++ (renderSepFs fs ++ rbraceC :: rest)))) := by
        simp [renderFs, renderStr]
      rw [harg]
      simp only [parseFs, skipWs_not_ws _ hws, if_pos rfl,
        parseStrBody_append k.data htame, skipWs_not_ws _ hws2,
        if_pos rfl, parseJ_space]
      rw [parseJ_renderJ fuel v htv hfuelv]
      cases fs with
      | fnil =>
          simp only [renderSepFs, List.nil_append, skipWs_not_ws _ hws3]
          have hcne : ¬ rbraceC = commaC := by decide
          simp [if_neg hcne, strMk_data]
      | fcons k2 v2 fs2 =>
          rw [renderSepFs_cons]
          simp only [List.cons_append, skipWs_not_ws _ hws4, if_pos rfl, parseFs_space]
          rw [parseFs_renderFs fuel k2 v2 fs2 htfs hfuelfs rest]
          simp [strMk_data]
end

/-! ### The brace scan on rendered values -/

theorem optShift (o : Option Nat) (a b : Nat) :
    (o.map (fun n => n + a)).map (fun n => n + b) = o.map (fun n => n + (a + b)) := by
  cases o with
  | none => rfl
  | some n => simp [Nat.add_assoc]

theorem scanBal_nonbrace {c : Char} (h1 : c ≠ lbraceC) (h2 : c ≠ rbraceC)
    (count : Int) (rest : List Char) :
    scanBal count (c :: rest) = (scanBal count rest).map (fun n => n + 1) := by
  simp [scanBal, h1, h2]

theorem scanBal_lbrace (count : Int) (rest : List Char) :
    scanBal count (lbraceC :: rest) = (scanBal (count + 1) rest).map (fun n => n + 1) := by
  simp [scanBal]

theorem scanBal_rbrace (count : Int) (rest : List Char) :
    scanBal count (rbraceC :: rest)
      = if count - 1 = 0 then some 0
        else (scanBal (count - 1) rest).map (fun n => n + 1) := by
  have h : ¬ rbraceC = lbraceC := by decide
  simp [scanBal, h]

/-- A brace-free segment shifts the scan result by its length. -/
theorem scanBal_neutral (A : List Char) (hA : ∀ c ∈ A, c ≠ lbraceC ∧ c ≠ rbraceC)
    (count : Int) (suf : List Char) :
    scanBal count (A ++ suf) = (scanBal count suf).map (fun n => n + A.length) := by
  induction A with
  | nil => cases h : scanBal count suf <;> simp [h]
  | cons c A ih =>
      have hc := hA c (by simp)
      rw [List.cons_append, scanBal_nonbrace hc.1 hc.2,
        ih (fun x hx => hA x (by simp [hx])), optShift]
      simp [Nat.add_comm]

theorem renderStr_no_brace (s : String) (h : tameStr s = true) :
    ∀ c ∈ renderStr s, c ≠ lbraceC ∧ c ≠ rbraceC := by
  intro c hc
  have hmem : c = quoteC ∨ c ∈ s.data := by
    simp only [renderStr, List.mem_cons, List.mem_append, List.mem_singleton] at hc
    tauto
  rcases hmem with rfl | h1
  · exact ⟨by decide, by decide⟩
  · have := (by simpa [tameStr, List.all_eq_true] using h :
        ∀ c ∈ s.data, tameChar c = true) c h1
    simp only [tameChar, Bool.and_eq_true, decide_eq_true_eq] at this
    exact ⟨this.1.2, this.2⟩

/-! Scanning a rendered tame value at a positive running count crosses it
without the count ever returning to zero inside it. -/

mutual
theorem scanBal_renderJ : ∀ (v : JVal), tameJ v = true → ∀ (count : Int), 0 < count →
    ∀ suf, scanBal count (renderJ v ++ suf)
      = (scanBal count suf).map (fun n => n + (renderJ v).length)
  | .jstr s, ht, count, _, suf => by
      exact scanBal_neutral (renderStr s) (renderStr_no_brace s (by simpa [tameJ] using ht))
        count suf
  | .jobj fs, ht, count, hpos, suf => by
      have harg : renderJ (.jobj fs) ++ suf = lbraceC :: (renderFs fs ++ rbraceC :: suf) := by
        simp [renderJ]
      have hlen : (renderJ (.jobj fs)).length = (renderFs fs).length + 2 := by
        simp [renderJ]
      rw [harg, hlen, scanBal_lbrace,
        scanBal_renderFs fs (by simpa [tameJ] using ht) (count + 1) (by omega)
          (rbraceC :: suf),
        scanBal_rbrace, if_neg (show ¬ count + 1 - 1 = 0 by omega),
        show count + 1 - 1 = count by omega, optShift, optShift]
      cases h : scanBal count suf <;> simp [h]
      omega
theorem scanBal_renderFs : ∀ (fs : JFields), tameFs fs = true → ∀ (count : Int), 0 < count →
    ∀ suf, scanBal count (renderFs fs ++ suf)
      = (scanBal count suf).map (fun n => n + (renderFs fs).length)
  | .fnil, _, count, _, suf => by
      cases h : scanBal count suf <;> simp [renderFs, h]
  | .fcons k v fs, ht, count, hpos, suf => by
      obtain ⟨⟨htk, htv⟩, htfs⟩ :
          (tameStr k = true ∧ tameJ v = true) ∧ tameFs fs = true := by
        simpa [tameFs, Bool.and_eq_true] using ht
      have harg : renderFs (.fcons k v fs) ++ suf
          = renderStr k ++ colonC :: spaceC :: (renderJ v ++ (renderSepFs fs ++ suf)) := by
        simp [renderFs]
      rw [harg, scanBal_neutral (renderStr k) (renderStr_no_brace k htk),
        scanBal_nonbrace (show colonC ≠ lbraceC by decide) (show colonC ≠ rbraceC by decide),
        scanBal_nonbrace (show spaceC ≠ lbraceC by decide) (show spaceC ≠ rbraceC by decide),
        scanBal_renderJ v htv count hpos,
        scanBal_renderSepFs fs htfs count hpos suf]
      have hlen : (renderFs (.fcons k v fs)).length
          = (renderStr k).length + 2 + ((renderJ v).length + (renderSepFs fs).length) := by
        simp [renderFs]
        omega
      rw [hlen, optShift, optShift, optShift, optShift]
      cases h : scanBal count suf <;> simp [h]
      omega
theorem scanBal_renderSepFs : ∀ (fs : JFields), tameFs fs = true → ∀ (count : Int),
    0 < count → ∀ suf, scanBal count (renderSepFs fs ++ suf)
      = (scanBal count suf).map (fun n => n + (renderSepFs fs).length)
  | .fnil, _, count, _, suf => by
      cases h : scanBal count suf <;> simp [renderSepFs, h]
  | .fcons k v fs, ht, count, hpos, suf => by
      obtain ⟨⟨htk, htv⟩, htfs⟩ :
          (tameStr k = true ∧ tameJ v = true) ∧ tameFs fs = true := by
        simpa [tameFs, Bool.and_eq_true] using ht
      have harg : renderSepFs (.fcons k v fs) ++ suf
          = commaC :: spaceC ::
              (renderStr k ++ colonC :: spaceC :: (renderJ v ++ (renderSepFs fs ++ suf))) := by
        simp [renderSepFs]
      rw [harg,
        scanBal_nonbrace (show commaC ≠ lbraceC by decide) (show commaC ≠ rbraceC by decide),
        scanBal_nonbrace (show spaceC ≠ lbraceC by decide) (show spaceC ≠ rbraceC by decide),
        scanBal_neutral (renderStr k) (renderStr_no_brace k htk),
        scanBal_nonbrace (show colonC ≠ lbraceC by decide) (show colonC ≠ rbraceC by decide),
        scanBal_nonbrace (show spaceC ≠ lbraceC by decide) (show spaceC ≠ rbraceC by decide),
        scanBal_renderJ v htv count hpos,
        scanBal_renderSepFs fs htfs count hpos suf]
      have hlen : (renderSepFs (.fcons k v fs)).length
          = (renderStr k).length + 4 + ((renderJ v).length + (renderSepFs fs).length) := by
        simp [renderSepFs]
        omega
      rw [hlen]
      cases h : scanBal count suf <;> simp [h]
      omega
end

/-- The scan from count zero over a rendered tame object (followed by
anything) balances exactly at the object's final close brace. -/
theorem scanBal_top (fs : JFields) (h : tameFs fs = true) (suf : List Char) :
    scanBal 0 (renderJ (.jobj fs) ++ suf) = some ((renderJ (.jobj fs)).length - 1) := by
  have harg : renderJ (.jobj fs) ++ suf = lbraceC :: (renderFs fs ++ rbraceC :: suf) := by
    simp [renderJ]
  rw [harg, scanBal_lbrace,
    scanBal_renderFs fs h (0 + 1) (by omega) (rbraceC :: suf),
    scanBal_rbrace, if_pos (show (0 : Int) + 1 - 1 = 0 by omega)]
  simp [renderJ]

/-! ### Locating the marker -/

theorem markerL_cons : markerL = lbraceC :: "\"tool_call\":".data := by decide

theorem markerL_expand : markerL = lbraceC :: (renderStr "tool_call" ++ [colonC]) := by
  decide

/-- The marker starts with an open brace, so it cannot occur inside a
brace-free prefix: the first occurrence is right after it. -/
theorem findSub_first (pre rest2 : List Char) (hpre : ∀ c ∈ pre, c ≠ lbraceC) :
    findSub markerL (pre ++ (markerL ++ rest2)) = some pre.length := by
  induction pre with
  | nil =>
      have hcons : markerL ++ rest2 = lbraceC :: ("\"tool_call\":".data ++ rest2) := by
        rw [markerL_cons]
        rfl
      have hp : markerL.isPrefixOf (markerL ++ rest2) = true := by
        rw [List.isPrefixOf_iff_prefix]
        exact List.prefix_append _ _
      rw [hcons] at hp
      rw [List.nil_append, hcons]
      have hstep : findSub markerL (lbraceC :: ("\"tool_call\":".data ++ rest2))
          = if markerL.isPrefixOf (lbraceC :: ("\"tool_call\":".data ++ rest2))
            then some 0
            else (findSub markerL ("\"tool_call\":".data ++ rest2)).map
              (fun n => n + 1) := rfl
      rw [hstep, if_pos hp]
      rfl
  | cons c pre ih =>
      have hc : c ≠ lbraceC := hpre c (by simp)
      have hnp : markerL.isPrefixOf (c :: (pre ++ (markerL ++ rest2))) = false := by
        rw [markerL_cons, List.isPrefixOf]
        have : (lbraceC == c) = false := by
          simpa [beq_eq_false_iff_ne] using fun e => hc e.symm
        simp [this]
      rw [List.cons_append, findSub, hnp]
      simp [ih (fun x hx => hpre x (by simp [hx]))]

theorem findChar_isSome_of_mem {c : Char} {l : List Char} (h : c ∈ l) :
    (findChar c l).isSome = true := by
  induction l with
  | nil => simp at h
  | cons d l ih =>
      by_cases hd : d = c
      · simp [findChar, hd]
      · rcases List.mem_cons.mp h with h1 | h1
        · exact absurd h1 (fun e => hd e.symm)
        · have hsome := ih h1
          cases h2 : findChar c l with
          | none => rw [h2] at hsome; simp at hsome
          | some n => simp [findChar, hd, h2]

theorem rbrace_mem_renderJ (fs : JFields) : rbraceC ∈ renderJ (.jobj fs) := by
  simp [renderJ]

/-! ### The extractors on a well-formed embedded call -/

/-- The call wrapper object the protocol embeds in a reply:
a json object with the single key tool_call. -/
def topObj (inner : JVal) : JVal := .jobj (.fcons "tool_call" inner .fnil)

theorem renderTop_eq (inner : JVal) :
    renderJ (topObj inner) = markerL ++ (spaceC :: (renderJ inner ++ [rbraceC])) := by
  rw [markerL_expand]
  simp [topObj, renderJ, renderFs, renderSepFs]

theorem tame_topObj (inner : JVal) (h : tameJ inner = true) :
    tameJ (topObj inner) = true := by
  have : tameStr "tool_call" = true := by decide
  simp [topObj, tameJ, tameFs, h, this]

theorem jsonLoads_renderJ (v : JVal) (ht : tameJ v = true) :
    jsonLoads (renderJ v) = some v := by
  unfold jsonLoads
  have h := parseJ_renderJ ((renderJ v).length + 1) v ht
    (le_trans (sizeJ_le_renderJ v) (by omega)) []
  rw [List.append_nil] at h
  rw [h]
  simp [skipWs]

/-- Both extractors, applied to any text made of a brace-free prefix,
the rendered call wrapper around a tame value, and an arbitrary
suffix, return exactly the wrapped value. -/
theorem extract_render (pre suf : List Char) (inner : JVal)
    (hpre : ∀ c ∈ pre, c ≠ lbraceC) (ht : tameJ inner = true) :
    MCPClient.extract_tool_call (String.mk (pre ++ (renderJ (topObj inner) ++ suf)))
        = some inner
      ∧ SimpleFC.extract_tool_call (String.mk (pre ++ (renderJ (topObj inner) ++ suf)))
        = some inner := by
  have htop : tameJ (topObj inner) = true := tame_topObj inner ht
  have hfind : findSub markerL (pre ++ (renderJ (topObj inner) ++ suf))
      = some pre.length := by
    have harr : renderJ (topObj inner) ++ suf
        = markerL ++ ((spaceC :: (renderJ inner ++ [rbraceC])) ++ suf) := by
      rw [renderTop_eq]
      simp [List.append_assoc]
    rw [harr]
    exact findSub_first pre _ hpre
  have hdrop : (pre ++ (renderJ (topObj inner) ++ suf)).drop pre.length
      = renderJ (topObj inner) ++ suf := List.drop_left pre _
  have hscan : scanBal 0 (renderJ (topObj inner) ++ suf)
      = some ((renderJ (topObj inner)).length - 1) := by
    have : topObj inner = .jobj (.fcons "tool_call" inner .fnil) := rfl
    rw [this] at htop ⊢
    exact scanBal_top _ (by simpa [tameJ] using htop) suf
  have hlenpos : 1 ≤ (renderJ (topObj inner)).length := by
    have := sizeJ_le_renderJ (topObj inner)
    have := sizeJ_pos (topObj inner)
    omega
  have htake : ∀ e0 : Nat,
      (renderJ (topObj inner) ++ suf).take
          (((scanBal 0 (renderJ (topObj inner) ++ suf)).getD e0) + 1)
        = renderJ (topObj inner) := by
    intro e0
    rw [hscan]
    have : (renderJ (topObj inner)).length - 1 + 1 = (renderJ (topObj inner)).length := by
      omega
    simp only [Option.getD_some, this]
    exact List.take_left _ _
  have hloads : jsonLoads (renderJ (topObj inner)) = some (topObj inner) :=
    jsonLoads_renderJ _ htop
  have hmem : rbraceC ∈ renderJ (topObj inner) ++ suf := by
    exact List.mem_append_left _ (rbrace_mem_renderJ _)
  have hfc := findChar_isSome_of_mem hmem
  obtain ⟨e0, he0⟩ := Option.isSome_iff_exists.mp hfc
  have hdata : (String.mk (pre ++ (renderJ (topObj inner) ++ suf))).data
      = pre ++ (renderJ (topObj inner) ++ suf) := rfl
  constructor
  · simp only [MCPClient.extract_tool_call, hdata, hfind, hdrop, he0, htake e0, hloads]
    simp [topObj, lookupF]
  · simp only [SimpleFC.extract_tool_call, hdata, hfind, hdrop, htake 0, hloads]
    simp [topObj, lookupF]

/-! ### Running the MCP loop -/

/-- A round in which the MCP loop sees a workable tool call: the client
returns a reply, the extractor finds a call object, and the object has
both a name and an arguments field (without them, the subscripts raise
and the catch-all ends the invocation with an error string). -/
def MCPClient.goodCallRound (model : ModelOracle) (j : Nat) : Prop :=
  ∃ reply fs, model j = .ok reply
    ∧ MCPClient.extract_tool_call reply = some (.jobj fs)
    ∧ (lookupF fs "name").isSome = true
    ∧ (lookupF fs "arguments").isSome = true

/-- A call object with a name field is a non-empty dict, hence truthy. -/
theorem MCPClient.not_falsy_of_name {fs : JFields} {nv : JVal}
    (h : lookupF fs "name" = some nv) : ¬ (JVal.jobj fs).falsy = true := by
  cases fs with
  | fnil => simp [lookupF] at h
  | fcons k v rest => exact Bool.false_ne_true

/-- After k workable call rounds and then a call-free reply, the loop
returns that reply, has made k + 1 client calls, and has appended
exactly 2 messages per call round and none for the final reply. -/
theorem MCPClient.chatLoop_run (model : ModelOracle) (toolOr : ToolOracle) :
    ∀ (k fuel round : Nat) (hist : List Msg) (calls : Nat) (r : String),
      k < fuel →
      (∀ i, i < k → MCPClient.goodCallRound model (round + i)) →
      model (round + k) = .ok r →
      MCPClient.extract_tool_call r = none →
      ∃ hist2, MCPClient.chatLoop model toolOr fuel round hist calls
          = ⟨r, hist2, calls + (k + 1)⟩
        ∧ hist2.length = hist.length + 2 * k := by
  intro k
  induction k with
  | zero =>
      intro fuel round hist calls r hk hgood hmod hext
      cases fuel with
      | zero => omega
      | succ f =>
          rw [Nat.add_zero] at hmod
          refine ⟨hist, ?_, by omega⟩
          simp only [MCPClient.chatLoop, hmod, hext]
  | succ k ih =>
      intro fuel round hist calls r hk hgood hmod hext
      cases fuel with
      | zero => omega
      | succ f =>
          obtain ⟨reply, fs, hm0, he0, hn, ha⟩ := hgood 0 (by omega)
          rw [Nat.add_zero] at hm0
          obtain ⟨nv, hnv⟩ := Option.isSome_iff_exists.mp hn
          obtain ⟨av, hav⟩ := Option.isSome_iff_exists.mp ha
          have hgood2 : ∀ i, i < k → MCPClient.goodCallRound model (round + 1 + i) := by
            intro i hi
            have := hgood (i + 1) (by omega)
            rwa [show round + (i + 1) = round + 1 + i by omega] at this
          have hmod2 : model (round + 1 + k) = .ok r := by
            rw [show round + 1 + k = round + (k + 1) by omega]
            exact hmod
          obtain ⟨hist2, hrec, hlen⟩ := ih f (round + 1)
            (hist ++ [⟨"assistant", reply⟩,
              ⟨"user", MCPClient.foldToolResult (MCPClient.call_tool toolOr nv av)⟩])
            (calls + 1) r (by omega) hgood2 hmod2 hext
          refine ⟨hist2, ?_, ?_⟩
          · simp only [MCPClient.chatLoop, hm0, he0]
            rw [if_neg (MCPClient.not_falsy_of_name hnv)]
            simp only [MCPClient.pyGetItem, hnv, hav, hrec]
            congr 1
            omega
          · simp only [List.length_append, List.length_cons, List.length_nil] at hlen
            omega

/-- The loop never makes more client calls than its remaining budget. -/
theorem MCPClient.chatLoop_calls_le (model : ModelOracle) (toolOr : ToolOracle) :
    ∀ (fuel round : Nat) (hist : List Msg) (calls : Nat),
      (MCPClient.chatLoop model toolOr fuel round hist calls).calls ≤ calls + fuel := by
  intro fuel
  induction fuel with
  | zero =>
      intro round hist calls
      simp [MCPClient.chatLoop]
  | succ f ih =>
      intro round hist calls
      simp only [MCPClient.chatLoop]
      cases hm : model round with
      | error e =>
          simp only [hm]
          show calls + 1 ≤ calls + (f + 1)
          omega
      | ok reply =>
          simp only [hm]
          cases he : MCPClient.extract_tool_call reply with
          | none =>
              simp only [he]
              show calls + 1 ≤ calls + (f + 1)
              omega
          | some tc =>
              simp only [he]
              cases tc with
              | jstr s =>
                  by_cases hf : (JVal.jstr s).falsy = true
                  · rw [if_pos hf]
                    show calls + 1 ≤ calls + (f + 1)
                    omega
                  · rw [if_neg hf]
                    show calls + 1 ≤ calls + (f + 1)
                    omega
              | jobj fs =>
                  cases fs with
                  | fnil =>
                      show calls + 1 ≤ calls + (f + 1)
                      omega
                  | fcons k0 v0 fs0 =>
                      rw [if_neg (show ¬ (JVal.jobj
                        (JFields.fcons k0 v0 fs0)).falsy = true from Bool.false_ne_true)]
                      cases hn : lookupF (JFields.fcons k0 v0 fs0) "name" with
                      | none =>
                          simp only [MCPClient.pyGetItem, hn]
                          show calls + 1 ≤ calls + (f + 1)
                          omega
                      | some nv =>
                          cases ha : lookupF (JFields.fcons k0 v0 fs0) "arguments" with
                          | none =>
                              simp only [MCPClient.pyGetItem, hn, ha]
                              show calls + 1 ≤ calls + (f + 1)
                              omega
                          | some av =>
                              simp only [MCPClient.pyGetItem, hn, ha]
                              have hrec := ih (round + 1)
                                (hist ++ [⟨"assistant", reply⟩,
                                  ⟨"user", MCPClient.foldToolResult
                                    (MCPClient.call_tool toolOr nv av)⟩]) (calls + 1)
                              omega

/-- With a workable call in every budgeted round, the loop runs its full
budget and ends in the fixed exhaustion message. -/
theorem MCPClient.chatLoop_exhaust (model : ModelOracle) (toolOr : ToolOracle) :
    ∀ (fuel round : Nat) (hist : List Msg) (calls : Nat),
      (∀ i, i < fuel → MCPClient.goodCallRound model (round + i)) →
      (MCPClient.chatLoop model toolOr fuel round hist calls).answer
        = MCPClient.exhaustedMsg := by
  intro fuel
  induction fuel with
  | zero =>
      intro round hist calls _
      simp [MCPClient.chatLoop]
  | succ f ih =>
      intro round hist calls hgood
      obtain ⟨reply, fs, hm0, he0, hn, ha⟩ := hgood 0 (by omega)
      rw [Nat.add_zero] at hm0
      obtain ⟨nv, hnv⟩ := Option.isSome_iff_exists.mp hn
      obtain ⟨av, hav⟩ := Option.isSome_iff_exists.mp ha
      have hgood2 : ∀ i, i < f → MCPClient.goodCallRound model (round + 1 + i) := by
        intro i hi
        have := hgood (i + 1) (by omega)
        rwa [show round + (i + 1) = round + 1 + i by omega] at this
      simp only [MCPClient.chatLoop, hm0, he0]
      rw [if_neg (MCPClient.not_falsy_of_name hnv)]
      simp only [MCPClient.pyGetItem, hnv, hav]
      exact ih (round + 1) _ (calls + 1) hgood2

/-! ### Running the example loop -/

/-- A round in which the example loop sees a workable tool call: a
reply arrives, the extractor finds a call object, and the name field is
not itself a dict (an unhashable dict name would raise out of
execute_tool; a missing or string name keeps the loop going, as unknown
or known tool respectively). -/
def SimpleFC.goodCallRound (model : ModelOracle) (j : Nat) : Prop :=
  ∃ reply fs, model j = .ok reply
    ∧ SimpleFC.extract_tool_call reply = some (.jobj fs)
    ∧ ∀ g, lookupF fs "name" ≠ some (.jobj g)

theorem SimpleFC.execute_tool_ok (registry : List String) (execOr : SimpleFC.ExecOracle)
    (toolName : Option JVal) (args : JVal)
    (h : ∀ g, toolName ≠ some (.jobj g)) :
    ∃ tr, SimpleFC.execute_tool registry execOr toolName args = .ok tr := by
  match toolName with
  | none => exact ⟨_, rfl⟩
  | some (.jobj g) => exact absurd rfl (h g)
  | some (.jstr n) =>
      simp only [SimpleFC.execute_tool]
      by_cases hr : n ∈ registry
      · rw [if_pos hr]
        cases he : execOr n args with
        | ok r => exact ⟨r, rfl⟩
        | error e => exact ⟨_, rfl⟩
      · rw [if_neg hr]
        exact ⟨_, rfl⟩

/-- After k workable call rounds and then a call-free reply, the example
loop returns that reply normally, with 2 messages appended per call
round and none for the final reply. -/
theorem SimpleFC.exampleLoop_run (model : ModelOracle) (registry : List String)
    (execOr : SimpleFC.ExecOracle) :
    ∀ (k fuel round : Nat) (hist : List Msg) (calls : Nat) (r : String),
      k < fuel →
      (∀ i, i < k → SimpleFC.goodCallRound model (round + i)) →
      model (round + k) = .ok r →
      SimpleFC.extract_tool_call r = none →
      ∃ hist2, SimpleFC.chatLoop model registry execOr fuel round hist calls
          = ⟨.ok r, hist2, calls + (k + 1)⟩
        ∧ hist2.length = hist.length + 2 * k := by
  intro k
  induction k with
  | zero =>
      intro fuel round hist calls r hk hgood hmod hext
      cases fuel with
      | zero => omega
      | succ f =>
          rw [Nat.add_zero] at hmod
          refine ⟨hist, ?_, by omega⟩
          simp only [SimpleFC.chatLoop, hmod, hext]
  | succ k ih =>
      intro fuel round hist calls r hk hgood hmod hext
      cases fuel with
      | zero => omega
      | succ f =>
          obtain ⟨reply, fs, hm0, he0, hname⟩ := hgood 0 (by omega)
          rw [Nat.add_zero] at hm0
          obtain ⟨tr, hexec⟩ := SimpleFC.execute_tool_ok registry execOr
            (lookupF fs "name") ((lookupF fs "arguments").getD (.jobj .fnil)) hname
          have hgood2 : ∀ i, i < k → SimpleFC.goodCallRound model (round + 1 + i) := by
            intro i hi
            have := hgood (i + 1) (by omega)
            rwa [show round + (i + 1) = round + 1 + i by omega] at this
          have hmod2 : model (round + 1 + k) = .ok r := by
            rw [show round + 1 + k = round + (k + 1) by omega]
            exact hmod
          obtain ⟨hist2, hrec, hlen⟩ := ih f (round + 1)
            (hist ++ [⟨"assistant", reply⟩, ⟨"user", "Tool result: " ++ tr⟩])
            (calls + 1) r (by omega) hgood2 hmod2 hext
          refine ⟨hist2, ?_, ?_⟩
          · simp only [SimpleFC.chatLoop, hm0, he0, hexec, hrec]
            congr 1
            omega
          · simp only [List.length_append, List.length_cons, List.length_nil] at hlen
            omega

/-- The example loop never makes more client calls than its budget. -/
theorem SimpleFC.exampleLoop_calls_le (model : ModelOracle) (registry : List String)
    (execOr : SimpleFC.ExecOracle) :
    ∀ (fuel round : Nat) (hist : List Msg) (calls : Nat),
      (SimpleFC.chatLoop model registry execOr fuel round hist calls).calls
        ≤ calls + fuel := by
  intro fuel
  induction fuel with
  | zero =>
      intro round hist calls
      simp [SimpleFC.chatLoop]
  | succ f ih =>
      intro round hist calls
      simp only [SimpleFC.chatLoop]
      cases hm : model round with
      | error e =>
          simp only [hm]
          show calls + 1 ≤ calls + (f + 1)
          omega
      | ok reply =>
          simp only [hm]
          cases he : SimpleFC.extract_tool_call reply with
          | none =>
              simp only [he]
              show calls + 1 ≤ calls + (f + 1)
              omega
          | some tc =>
              try simp only [he]
              cases tc with
              | jstr s =>
                  show calls + 1 ≤ calls + (f + 1)
                  omega
              | jobj fs =>
                  cases hex : SimpleFC.execute_tool registry execOr (lookupF fs "name")
                      ((lookupF fs "arguments").getD (.jobj .fnil)) with
                  | error e =>
                      simp only [hex]
                      show calls + 1 ≤ calls + (f + 1)
                      omega
                  | ok tr =>
                      simp only [hex]
                      have hrec := ih (round + 1)
                        (hist ++ [⟨"assistant", reply⟩, ⟨"user", "Tool result: " ++ tr⟩])
                        (calls + 1)
                      omega

/-- With a workable call in every budgeted round, the example loop runs
its full budget and ends in the fixed exhaustion message. -/
theorem SimpleFC.exampleLoop_exhaust (model : ModelOracle) (registry : List String)
    (execOr : SimpleFC.ExecOracle) :
    ∀ (fuel round : Nat) (hist : List Msg) (calls : Nat),
      (∀ i, i < fuel → SimpleFC.goodCallRound model (round + i)) →
      (SimpleFC.chatLoop model registry execOr fuel round hist calls).outcome
        = .ok SimpleFC.exhaustedMsg := by
  intro fuel
  induction fuel with
  | zero =>
      intro round hist calls _
      simp [SimpleFC.chatLoop]
  | succ f ih =>
      intro round hist calls hgood
      obtain ⟨reply, fs, hm0, he0, hname⟩ := hgood 0 (by omega)
      rw [Nat.add_zero] at hm0
      obtain ⟨tr, hexec⟩ := SimpleFC.execute_tool_ok registry execOr
        (lookupF fs "name") ((lookupF fs "arguments").getD (.jobj .fnil)) hname
      have hgood2 : ∀ i, i < f → SimpleFC.goodCallRound model (round + 1 + i) := by
        intro i hi
        have := hgood (i + 1) (by omega)
        rwa [show round + (i + 1) = round + 1 + i by omega] at this
      simp only [SimpleFC.chatLoop, hm0, he0, hexec]
      exact ih (round + 1) _ (calls + 1) hgood2

/-! ### Unfolding the entry points -/

theorem MCPClient.chat_unfold (tools : List (String × String)) (maxLoops : Nat)
    (model : ModelOracle) (toolOr : ToolOracle) (u : String) (h : tools ≠ []) :
    MCPClient.chat_with_tools tools maxLoops model toolOr u
      = MCPClient.chatLoop model toolOr maxLoops 0
          [⟨"system", MCPClient.create_system_prompt tools⟩, ⟨"user", u⟩] 0 := by
  have hf : tools.isEmpty = false := by
    cases tools with
    | nil => exact absurd rfl h
    | cons a t => rfl
  simp [MCPClient.chat_with_tools, hf]

theorem SimpleFC.example_chat_unfold (toolLines registry : List String)
    (execOr : SimpleFC.ExecOracle) (model : ModelOracle) (u : String) (maxIter : Nat) :
    SimpleFC.chat_with_tools toolLines registry execOr model u maxIter
      = SimpleFC.chatLoop model registry execOr maxIter 0
          [⟨"system", SimpleFC.create_system_prompt toolLines⟩, ⟨"user", u⟩] 0 := rfl

/-! ### The claims -/

/-- C10: with no available tools, chat_with_tools returns the fixed
"Error: No tools available" string at once: no history is built and the
completion client is never contacted (zero calls). -/
theorem claim10_no_tools_short_circuit (maxLoops : Nat) (model : ModelOracle)
    (toolOr : ToolOracle) (userMessage : String) :
    MCPClient.chat_with_tools [] maxLoops model toolOr userMessage
      = ⟨"Error: No tools available", [], 0⟩ := rfl

/-- C1 counterexample: the claim's split of failures is not what the code
does.  First two conjuncts: a completion-client exception is caught and
returned as an ordinary answer string in both loops (it does not
propagate as a raised error).  Third conjunct: in the example loop a
model reply whose call value is a string raises AttributeError out of
the whole invocation — a hard error reaching the caller although the
backend worked.  Fourth conjunct: in the MCP loop a call object with no
name field ends the invocation with the same "Error: ..." shape as a
backend failure, so non-backend failures are not all absorbed into a
normal answer. -/
theorem claim1_counterexample :
    (MCPClient.chat_with_tools [("echo", "echo a string")] 3
        (fun _ => .error "boom") (fun _ _ => .ok "x") "hi").answer = "Error: boom"
    ∧ (SimpleFC.chat_with_tools [] ["echo"] (fun _ _ => .ok "x")
        (fun _ => .error "boom") "hi" 3).outcome
        = .ok "Error communicating with model: boom"
    ∧ (SimpleFC.chat_with_tools [] ["echo"] (fun _ _ => .ok "x")
        (fun _ => .ok "\x7b\"tool_call\": \"x\"\x7d") "hi" 3).outcome
        = .error "\x27str\x27 object has no attribute \x27get\x27"
    ∧ (MCPClient.chat_with_tools [("echo", "echo a string")] 3
        (fun _ => .ok "\x7b\"tool_call\": \x7b\"arguments\": \x7b\x7d\x7d\x7d")
        (fun _ _ => .ok "x") "hi").answer = "Error: \x27name\x27" := by
  refine ⟨rfl, rfl, ?_, ?_⟩ <;> decide

/-- C1 amended: when the completion-client call raises, both loops end
the invocation immediately and return the failure as an error string
("Error: <msg>" in the MCP client after one client call, "Error
communicating with model: <msg>" in the example); the error is a
returned answer, not a raised exception, and it is not the only failure
class that produces an error-shaped outcome. -/
theorem claim1_amended_backend_failure (tools : List (String × String))
    (maxLoops : Nat) (model : ModelOracle) (toolOr : ToolOracle)
    (toolLines registry : List String) (execOr : SimpleFC.ExecOracle)
    (userMsg eps : String)
    (htools : tools ≠ []) (hloops : 0 < maxLoops) (hmod : model 0 = .error eps) :
    (MCPClient.chat_with_tools tools maxLoops model toolOr userMsg).answer
        = "Error: " ++ eps
    ∧ (MCPClient.chat_with_tools tools maxLoops model toolOr userMsg).calls = 1
    ∧ (SimpleFC.chat_with_tools toolLines registry execOr model userMsg maxLoops).outcome
        = .ok ("Error communicating with model: " ++ eps) := by
  obtain ⟨m, rfl⟩ : ∃ m, maxLoops = m + 1 := ⟨maxLoops - 1, by omega⟩
  rw [MCPClient.chat_unfold tools _ model toolOr userMsg htools,
    SimpleFC.example_chat_unfold]
  simp only [MCPClient.chatLoop, SimpleFC.chatLoop, hmod]
  refine ⟨?_, ?_, ?_⟩ <;> trivial

/-- C1 witness: the amended statement at a concrete failing backend. -/
theorem claim1_amended_backend_failure_witness :
    (MCPClient.chat_with_tools [("echo", "echo a string")] 3
        (fun _ => .error "connection refused") (fun _ _ => .ok "x") "hi").answer
      = "Error: connection refused" := by
  exact (claim1_amended_backend_failure [("echo", "echo a string")] 3
    (fun _ => .error "connection refused") (fun _ _ => .ok "x") [] ["echo"]
    (fun _ _ => .ok "x") "hi" "connection refused"
    (by simp) (by omega) rfl).1

/-- C3 counterexample: on a first reply with no marker the loop returns
the reply but never appends it: the history stays at the 2 seed
messages, not 3 as the claim states. -/
theorem claim3_counterexample :
    (MCPClient.chat_with_tools [("echo", "echo a string")] 3
        (fun _ => .ok "Hello there") (fun _ _ => .ok "x") "hi").answer = "Hello there"
    ∧ (MCPClient.chat_with_tools [("echo", "echo a string")] 3
        (fun _ => .ok "Hello there") (fun _ _ => .ok "x") "hi").history.length = 2
    ∧ (MCPClient.chat_with_tools [("echo", "echo a string")] 3
        (fun _ => .ok "Hello there") (fun _ _ => .ok "x") "hi").history.length ≠ 3 := by
  refine ⟨?_, ?_, ?_⟩ <;> decide

/-- C3 amended: the terminating round appends nothing: the final
assistant reply is returned without entering the history, so the history
grows by 0 on that round, and after an immediate call-free reply it is
exactly the 2-message seed in both loops. -/
theorem claim3_amended_no_final_append (tools : List (String × String))
    (maxLoops : Nat) (model : ModelOracle) (toolOr : ToolOracle)
    (toolLines registry : List String) (execOr : SimpleFC.ExecOracle)
    (userMsg r : String)
    (htools : tools ≠ []) (hloops : 0 < maxLoops) (hmod : model 0 = .ok r)
    (hex1 : MCPClient.extract_tool_call r = none)
    (hex2 : SimpleFC.extract_tool_call r = none) :
    MCPClient.chat_with_tools tools maxLoops model toolOr userMsg
        = ⟨r, [⟨"system", MCPClient.create_system_prompt tools⟩, ⟨"user", userMsg⟩], 1⟩
    ∧ SimpleFC.chat_with_tools toolLines registry execOr model userMsg maxLoops
        = ⟨.ok r,
            [⟨"system", SimpleFC.create_system_prompt toolLines⟩, ⟨"user", userMsg⟩], 1⟩ := by
  obtain ⟨m, rfl⟩ : ∃ m, maxLoops = m + 1 := ⟨maxLoops - 1, by omega⟩
  rw [MCPClient.chat_unfold tools _ model toolOr userMsg htools, SimpleFC.example_chat_unfold]
  simp only [MCPClient.chatLoop, SimpleFC.chatLoop, hmod, hex1, hex2]
  refine ⟨?_, ?_⟩ <;> trivial

/-- C3 witness: the amended statement at scenario B. -/
theorem claim3_amended_no_final_append_witness :
    (MCPClient.chat_with_tools [("echo", "echo a string")] 3
        (fun _ => .ok "Hello there") (fun _ _ => .ok "x") "hi").history.length = 2 := by
  have h := (claim3_amended_no_final_append [("echo", "echo a string")] 3
    (fun _ => .ok "Hello there") (fun _ _ => .ok "x") [] ["echo"]
    (fun _ _ => .ok "x") "hi" "Hello there"
    (by simp) (by omega) rfl (by decide) (by decide)).1
  rw [h]
  rfl

/-- C2: a run of k workable call rounds followed by a call-free reply
leaves the history at exactly 2 + 2k messages (seed plus two per call
round; the final reply is returned, not appended) and returns that
final reply, in both loops. -/
theorem claim2_history_length (tools : List (String × String)) (maxLoops : Nat)
    (model : ModelOracle) (toolOr : ToolOracle) (toolLines registry : List String)
    (execOr : SimpleFC.ExecOracle) (userMsg : String) (k : Nat) (r : String)
    (htools : tools ≠ []) (hk : k < maxLoops)
    (hgood1 : ∀ i, i < k → MCPClient.goodCallRound model i)
    (hgood2 : ∀ i, i < k → SimpleFC.goodCallRound model i)
    (hmod : model k = .ok r)
    (hex1 : MCPClient.extract_tool_call r = none)
    (hex2 : SimpleFC.extract_tool_call r = none) :
    (MCPClient.chat_with_tools tools maxLoops model toolOr userMsg).history.length
        = 2 + 2 * k
    ∧ (MCPClient.chat_with_tools tools maxLoops model toolOr userMsg).answer = r
    ∧ (SimpleFC.chat_with_tools toolLines registry execOr model
          userMsg maxLoops).history.length = 2 + 2 * k
    ∧ (SimpleFC.chat_with_tools toolLines registry execOr model
          userMsg maxLoops).outcome = .ok r := by
  rw [MCPClient.chat_unfold tools maxLoops model toolOr userMsg htools,
    SimpleFC.example_chat_unfold]
  obtain ⟨h1, e1, l1⟩ := MCPClient.chatLoop_run model toolOr k maxLoops 0
    [⟨"system", MCPClient.create_system_prompt tools⟩, ⟨"user", userMsg⟩] 0 r hk
    (fun i hi => by simpa using hgood1 i hi) (by simpa using hmod) hex1
  obtain ⟨h2, e2, l2⟩ := SimpleFC.exampleLoop_run model registry execOr k maxLoops 0
    [⟨"system", SimpleFC.create_system_prompt toolLines⟩, ⟨"user", userMsg⟩] 0 r hk
    (fun i hi => by simpa using hgood2 i hi) (by simpa using hmod) hex2
  rw [e1, e2]
  simp only [List.length_cons, List.length_nil] at l1 l2
  refine ⟨by simpa using l1, rfl, by simpa using l2, rfl⟩

/-- C2 witness: scenario A, one echo call round then the plain reply
"hi"; the history ends at 4 messages and the answer is "hi". -/
theorem claim2_history_length_witness :
    (MCPClient.chat_with_tools [("echo", "echo a string")] 3
        (fun n => if n = 0
          then .ok "\x7b\"tool_call\": \x7b\"name\": \"echo\", \"arguments\": \x7b\"text\": \"hi\"\x7d\x7d\x7d"
          else .ok "hi")
        (fun _ _ => .ok "hi") "say hi").history.length = 2 + 2 * 1
    ∧ (MCPClient.chat_with_tools [("echo", "echo a string")] 3
        (fun n => if n = 0
          then .ok "\x7b\"tool_call\": \x7b\"name\": \"echo\", \"arguments\": \x7b\"text\": \"hi\"\x7d\x7d\x7d"
          else .ok "hi")
        (fun _ _ => .ok "hi") "say hi").answer = "hi" := by
  have h := claim2_history_length [("echo", "echo a string")] 3
    (fun n => if n = 0
      then .ok "\x7b\"tool_call\": \x7b\"name\": \"echo\", \"arguments\": \x7b\"text\": \"hi\"\x7d\x7d\x7d"
      else .ok "hi")
    (fun _ _ => .ok "hi") ["- echo"] ["echo"] (fun _ _ => .ok "hi") "say hi" 1 "hi"
    (by simp) (by omega)
    (fun i hi => by
      have h0 : i = 0 := by omega
      subst h0
      refine ⟨"\x7b\"tool_call\": \x7b\"name\": \"echo\", \"arguments\": \x7b\"text\": \"hi\"\x7d\x7d\x7d",
        .fcons "name" (.jstr "echo")
          (.fcons "arguments" (.jobj (.fcons "text" (.jstr "hi") .fnil)) .fnil),
        rfl, by decide, by decide, by decide⟩)
    (fun i hi => by
      have h0 : i = 0 := by omega
      subst h0
      refine ⟨"\x7b\"tool_call\": \x7b\"name\": \"echo\", \"arguments\": \x7b\"text\": \"hi\"\x7d\x7d\x7d",
        .fcons "name" (.jstr "echo")
          (.fcons "arguments" (.jobj (.fcons "text" (.jstr "hi") .fnil)) .fnil),
        rfl, by decide, ?_⟩
      intro g
      rw [show lookupF (.fcons "name" (.jstr "echo")
        (.fcons "arguments" (.jobj (.fcons "text" (.jstr "hi") .fnil)) .fnil)) "name"
          = some (.jstr "echo") from by decide]
      simp)
    rfl (by decide) (by decide)
  exact ⟨h.1, h.2.1⟩

/-- C7: both loops make at most maxLoops completion-client calls for any
input and any model behaviour; and when every budgeted round has a
workable tool call (and, for the MCP client, tools are available so the
loop runs at all), the invocation ends in the respective fixed
exhaustion message rather than diverging or crashing. -/
theorem claim7_round_budget (tools : List (String × String)) (maxLoops : Nat)
    (model : ModelOracle) (toolOr : ToolOracle) (toolLines registry : List String)
    (execOr : SimpleFC.ExecOracle) (userMsg : String) :
    (MCPClient.chat_with_tools tools maxLoops model toolOr userMsg).calls ≤ maxLoops
    ∧ (SimpleFC.chat_with_tools toolLines registry execOr model
          userMsg maxLoops).calls ≤ maxLoops
    ∧ (tools ≠ [] → (∀ i, i < maxLoops → MCPClient.goodCallRound model i) →
        (MCPClient.chat_with_tools tools maxLoops model toolOr userMsg).answer
          = MCPClient.exhaustedMsg)
    ∧ ((∀ i, i < maxLoops → SimpleFC.goodCallRound model i) →
        (SimpleFC.chat_with_tools toolLines registry execOr model
            userMsg maxLoops).outcome = .ok SimpleFC.exhaustedMsg) := by
  refine ⟨?_, ?_, ?_, ?_⟩
  · cases tools with
    | nil => exact Nat.zero_le _
    | cons a t =>
        rw [MCPClient.chat_unfold _ _ _ _ _ (by simp)]
        simpa using MCPClient.chatLoop_calls_le model toolOr maxLoops 0
          [⟨"system", MCPClient.create_system_prompt (a :: t)⟩, ⟨"user", userMsg⟩] 0
  · rw [SimpleFC.example_chat_unfold]
    simpa using SimpleFC.exampleLoop_calls_le model registry execOr maxLoops 0
      [⟨"system", SimpleFC.create_system_prompt toolLines⟩, ⟨"user", userMsg⟩] 0
  · intro htools hgood
    rw [MCPClient.chat_unfold _ _ _ _ _ htools]
    exact MCPClient.chatLoop_exhaust model toolOr maxLoops 0 _ 0
      (fun i hi => by simpa using hgood i hi)
  · intro hgood
    rw [SimpleFC.example_chat_unfold]
    exact SimpleFC.exampleLoop_exhaust model registry execOr maxLoops 0 _ 0
      (fun i hi => by simpa using hgood i hi)

/-- C7 witness: with a model that requests a call every round and budget
2, both loops stop after 2 calls with their exhaustion messages. -/
theorem claim7_round_budget_witness :
    (MCPClient.chat_with_tools [("echo", "echo a string")] 2
        (fun _ => .ok "\x7b\"tool_call\": \x7b\"name\": \"bogus\", \"arguments\": \x7b\x7d\x7d\x7d")
        (fun _ _ => .ok "r") "hi").calls ≤ 2
    ∧ (MCPClient.chat_with_tools [("echo", "echo a string")] 2
        (fun _ => .ok "\x7b\"tool_call\": \x7b\"name\": \"bogus\", \"arguments\": \x7b\x7d\x7d\x7d")
        (fun _ _ => .ok "r") "hi").answer = MCPClient.exhaustedMsg := by
  have h := claim7_round_budget [("echo", "echo a string")] 2
    (fun _ => .ok "\x7b\"tool_call\": \x7b\"name\": \"bogus\", \"arguments\": \x7b\x7d\x7d\x7d")
    (fun _ _ => .ok "r") ["- echo"] ["echo"] (fun _ _ => .ok "r") "hi"
  refine ⟨h.1, h.2.2.1 (by simp) ?_⟩
  intro i hi
  refine ⟨"\x7b\"tool_call\": \x7b\"name\": \"bogus\", \"arguments\": \x7b\x7d\x7d\x7d",
    .fcons "name" (.jstr "bogus") (.fcons "arguments" (.jobj .fnil) .fnil),
    rfl, by decide, by decide, by decide⟩

/-- The call object the protocol documents: a name and an arguments
mapping. -/
def callObj (name : String) (args : JFields) : JVal :=
  .jobj (.fcons "name" (.jstr name) (.fcons "arguments" (.jobj args) .fnil))

theorem tame_callObj (name : String) (args : JFields)
    (h1 : tameStr name = true) (h2 : tameFs args = true) :
    tameJ (callObj name args) = true := by
  have ha : tameStr "name" = true := by decide
  have hb : tameStr "arguments" = true := by decide
  simp [callObj, tameJ, tameFs, h1, h2, ha, hb]

/-- C4: replies without the marker yield no call from either extractor;
replies carrying the marker followed by a well-formed brace-balanced
call object (any brace-free prefix, any suffix) yield exactly that call
object, which carries the stated name and arguments mapping; and when a
second rendered call follows later in the text, only the first one is
returned. -/
theorem claim4_extractor_correct :
    (∀ text : String, findSub markerL text.data = none →
        MCPClient.extract_tool_call text = none
          ∧ SimpleFC.extract_tool_call text = none)
    ∧ (∀ (pre suf : List Char) (name : String) (args : JFields),
        (∀ c ∈ pre, c ≠ lbraceC) → tameStr name = true → tameFs args = true →
        MCPClient.extract_tool_call
            (String.mk (pre ++ (renderJ (topObj (callObj name args)) ++ suf)))
          = some (callObj name args)
        ∧ SimpleFC.extract_tool_call
            (String.mk (pre ++ (renderJ (topObj (callObj name args)) ++ suf)))
          = some (callObj name args)
        ∧ lookupF (.fcons "name" (.jstr name) (.fcons "arguments" (.jobj args) .fnil))
            "name" = some (.jstr name)
        ∧ lookupF (.fcons "name" (.jstr name) (.fcons "arguments" (.jobj args) .fnil))
            "arguments" = some (.jobj args))
    ∧ (∀ (pre mid suf : List Char) (name1 name2 : String) (args1 args2 : JFields),
        (∀ c ∈ pre, c ≠ lbraceC) → tameStr name1 = true → tameFs args1 = true →
        MCPClient.extract_tool_call
            (String.mk (pre ++ (renderJ (topObj (callObj name1 args1))
              ++ (mid ++ (renderJ (topObj (callObj name2 args2)) ++ suf)))))
          = some (callObj name1 args1)
        ∧ SimpleFC.extract_tool_call
            (String.mk (pre ++ (renderJ (topObj (callObj name1 args1))
              ++ (mid ++ (renderJ (topObj (callObj name2 args2)) ++ suf)))))
          = some (callObj name1 args1)) := by
  refine ⟨?_, ?_, ?_⟩
  · intro text h
    constructor
    · simp only [MCPClient.extract_tool_call, h]
    · simp only [SimpleFC.extract_tool_call, h]
  · intro pre suf name args hpre h1 h2
    have hx := extract_render pre suf (callObj name args) hpre (tame_callObj name args h1 h2)
    exact ⟨hx.1, hx.2, rfl, rfl⟩
  · intro pre mid suf name1 name2 args1 args2 hpre h1 h2
    exact extract_render pre (mid ++ (renderJ (topObj (callObj name2 args2)) ++ suf))
      (callObj name1 args1) hpre (tame_callObj name1 args1 h1 h2)

/-- C4 witness: the echo call extracts on a concrete rendered reply; a
marker-free reply extracts to nothing. -/
theorem claim4_extractor_correct_witness :
    MCPClient.extract_tool_call
        (String.mk ([] ++ (renderJ (topObj (callObj "echo"
          (.fcons "text" (.jstr "hi") .fnil))) ++ [])))
      = some (callObj "echo" (.fcons "text" (.jstr "hi") .fnil))
    ∧ MCPClient.extract_tool_call "Hello there" = none := by
  constructor
  · exact (claim4_extractor_correct.2.1 [] [] "echo" (.fcons "text" (.jstr "hi") .fnil)
      (by simp) (by decide) (by decide)).1
  · exact (claim4_extractor_correct.1 "Hello there" (by decide)).1

/-- C5 counterexample: a parseable call object with the name field
missing is not reported as "no call": both extractors return the object,
and the MCP loop then surfaces the KeyError as the returned string
"Error: 'name'" instead of proceeding as if the model had answered
directly. -/
theorem claim5_counterexample :
    MCPClient.extract_tool_call "\x7b\"tool_call\": \x7b\"arguments\": \x7b\x7d\x7d\x7d"
        = some (.jobj (.fcons "arguments" (.jobj .fnil) .fnil))
    ∧ SimpleFC.extract_tool_call "\x7b\"tool_call\": \x7b\"arguments\": \x7b\x7d\x7d\x7d"
        = some (.jobj (.fcons "arguments" (.jobj .fnil) .fnil))
    ∧ (MCPClient.chat_with_tools [("echo", "echo a string")] 3
        (fun _ => .ok "\x7b\"tool_call\": \x7b\"arguments\": \x7b\x7d\x7d\x7d")
        (fun _ _ => .ok "x") "hi").answer = "Error: \x27name\x27" := by
  refine ⟨?_, ?_, ?_⟩ <;> decide

/-- C5 amended: neither extractor checks for a name field, so a
parseable nameless call object is returned as a call, not reported as
no call.  What follows turns on python truthiness in the MCP loop: an
empty call object is falsy, so `if not tool_call:` returns the reply as
the final answer with no error, while a non-empty object lacking name
reaches the tool_call["name"] subscript and the caught KeyError ends
the invocation with "Error: 'name'" returned to the caller; the example
loop dispatches any dict call object without a name as unknown tool
None, folds that error into history and continues to the next round. -/
theorem claim5_amended_missing_name :
    (∀ args : JFields, tameFs args = true →
      MCPClient.extract_tool_call (String.mk (renderJ (topObj
          (.jobj (.fcons "arguments" (.jobj args) .fnil)))))
        = some (.jobj (.fcons "arguments" (.jobj args) .fnil))
      ∧ SimpleFC.extract_tool_call (String.mk (renderJ (topObj
          (.jobj (.fcons "arguments" (.jobj args) .fnil)))))
        = some (.jobj (.fcons "arguments" (.jobj args) .fnil)))
    ∧ MCPClient.extract_tool_call (String.mk (renderJ (topObj (.jobj .fnil))))
        = some (.jobj .fnil)
    ∧ (∀ (tools : List (String × String)) (maxLoops : Nat) (model : ModelOracle)
        (toolOr : ToolOracle) (userMsg : String),
        tools ≠ [] → 0 < maxLoops →
        model 0 = .ok (String.mk (renderJ (topObj (.jobj .fnil)))) →
        MCPClient.chat_with_tools tools maxLoops model toolOr userMsg
          = ⟨String.mk (renderJ (topObj (.jobj .fnil))),
              [⟨"system", MCPClient.create_system_prompt tools⟩, ⟨"user", userMsg⟩], 1⟩)
    ∧ (∀ (args : JFields) (tools : List (String × String)) (maxLoops : Nat)
        (model : ModelOracle) (toolOr : ToolOracle) (userMsg : String),
        tameFs args = true → tools ≠ [] → 0 < maxLoops →
        model 0 = .ok (String.mk (renderJ (topObj
          (.jobj (.fcons "arguments" (.jobj args) .fnil))))) →
        (MCPClient.chat_with_tools tools maxLoops model toolOr userMsg).answer
          = "Error: \x27name\x27")
    ∧ (∀ (args : JFields) (toolLines registry : List String)
        (execOr : SimpleFC.ExecOracle) (model : ModelOracle) (userMsg final : String)
        (maxLoops : Nat),
        tameFs args = true → 1 < maxLoops →
        model 0 = .ok (String.mk (renderJ (topObj
          (.jobj (.fcons "arguments" (.jobj args) .fnil))))) →
        model 1 = .ok final → SimpleFC.extract_tool_call final = none →
        (SimpleFC.chat_with_tools toolLines registry execOr model
            userMsg maxLoops).outcome = .ok final
        ∧ (SimpleFC.chat_with_tools toolLines registry execOr model
            userMsg maxLoops).history
          = [⟨"system", SimpleFC.create_system_prompt toolLines⟩, ⟨"user", userMsg⟩,
              ⟨"assistant", String.mk (renderJ (topObj
                (.jobj (.fcons "arguments" (.jobj args) .fnil))))⟩,
              ⟨"user", "Tool result: Error: Unknown tool \x27None\x27"⟩]) := by
  have htameArgs : ∀ args : JFields, tameFs args = true →
      tameJ (.jobj (.fcons "arguments" (.jobj args) .fnil)) = true := by
    intro args hargs
    have hb : tameStr "arguments" = true := by decide
    simp [tameJ, tameFs, hargs, hb]
  have hxargs : ∀ args : JFields, tameFs args = true →
      MCPClient.extract_tool_call (String.mk (renderJ (topObj
          (.jobj (.fcons "arguments" (.jobj args) .fnil)))))
        = some (.jobj (.fcons "arguments" (.jobj args) .fnil))
      ∧ SimpleFC.extract_tool_call (String.mk (renderJ (topObj
          (.jobj (.fcons "arguments" (.jobj args) .fnil)))))
        = some (.jobj (.fcons "arguments" (.jobj args) .fnil)) := by
    intro args hargs
    have hx := extract_render [] [] (.jobj (.fcons "arguments" (.jobj args) .fnil))
      (by simp) (htameArgs args hargs)
    exact ⟨by simpa using hx.1, by simpa using hx.2⟩
  have hxempty : MCPClient.extract_tool_call
      (String.mk (renderJ (topObj (.jobj .fnil)))) = some (.jobj .fnil) := by
    have hx := extract_render [] [] (.jobj .fnil) (by simp) rfl
    simpa using hx.1
  refine ⟨hxargs, hxempty, ?_, ?_, ?_⟩
  · intro tools maxLoops model toolOr userMsg htools hloops hm0
    obtain ⟨m, rfl⟩ : ∃ m, maxLoops = m + 1 := ⟨maxLoops - 1, by omega⟩
    rw [MCPClient.chat_unfold tools _ model toolOr userMsg htools]
    simp only [MCPClient.chatLoop, hm0, hxempty]
    rw [if_pos (show (JVal.jobj JFields.fnil).falsy = true from rfl)]
  · intro args tools maxLoops model toolOr userMsg hargs htools hloops hm0
    have hx1 := (hxargs args hargs).1
    obtain ⟨m, rfl⟩ : ∃ m, maxLoops = m + 1 := ⟨maxLoops - 1, by omega⟩
    rw [MCPClient.chat_unfold tools _ model toolOr userMsg htools]
    simp only [MCPClient.chatLoop, hm0, hx1, MCPClient.pyGetItem,
      show lookupF (.fcons "arguments" (.jobj args) .fnil) "name" = none from rfl]
    rfl
  · intro args toolLines registry execOr model userMsg final maxLoops
      hargs hloops hm0 hm1 hfin
    have hx2 := (hxargs args hargs).2
    obtain ⟨m, rfl⟩ : ∃ m, maxLoops = m + 2 := ⟨maxLoops - 2, by omega⟩
    refine ⟨?_, ?_⟩
    · rw [SimpleFC.example_chat_unfold]
      simp only [SimpleFC.chatLoop, hm0, hx2, hm1, hfin,
        show SimpleFC.execute_tool registry execOr
          (lookupF (.fcons "arguments" (.jobj args) .fnil) "name")
          ((lookupF (.fcons "arguments" (.jobj args) .fnil) "arguments").getD
            (.jobj .fnil))
          = .ok "Error: Unknown tool \x27None\x27" from rfl]
    · rw [SimpleFC.example_chat_unfold]
      simp only [SimpleFC.chatLoop, hm0, hx2, hm1, hfin,
        show SimpleFC.execute_tool registry execOr
          (lookupF (.fcons "arguments" (.jobj args) .fnil) "name")
          ((lookupF (.fcons "arguments" (.jobj args) .fnil) "arguments").getD
            (.jobj .fnil))
          = .ok "Error: Unknown tool \x27None\x27" from rfl]
      rfl

/-- C5 witness: the amended statement at concrete inputs — the empty
call object comes back as the final answer with the seed history, the
non-empty nameless object produces the "Error: 'name'" return. -/
theorem claim5_amended_missing_name_witness :
    MCPClient.chat_with_tools [("echo", "echo a string")] 3
        (fun _ => .ok (String.mk (renderJ (topObj (.jobj .fnil)))))
        (fun _ _ => .ok "x") "hi"
      = ⟨String.mk (renderJ (topObj (.jobj .fnil))),
          [⟨"system", MCPClient.create_system_prompt [("echo", "echo a string")]⟩,
            ⟨"user", "hi"⟩], 1⟩
    ∧ (MCPClient.chat_with_tools [("echo", "echo a string")] 3
        (fun _ => .ok (String.mk (renderJ (topObj
          (.jobj (.fcons "arguments" (.jobj .fnil) .fnil))))))
        (fun _ _ => .ok "x") "hi").answer = "Error: \x27name\x27" := by
  constructor
  · exact claim5_amended_missing_name.2.2.1 [("echo", "echo a string")] 3
      (fun _ => .ok (String.mk (renderJ (topObj (.jobj .fnil)))))
      (fun _ _ => .ok "x") "hi" (by simp) (by omega) rfl
  · exact claim5_amended_missing_name.2.2.2.1 .fnil [("echo", "echo a string")] 3
      (fun _ => .ok (String.mk (renderJ (topObj
        (.jobj (.fcons "arguments" (.jobj .fnil) .fnil))))))
      (fun _ _ => .ok "x") "hi" (by decide) (by simp) (by omega) rfl

/-- A found occurrence means the needle sits as a prefix at that index. -/
theorem findSub_prefix (needle : List Char) :
    ∀ (hay : List Char) (n : Nat), findSub needle hay = some n →
      needle.isPrefixOf (hay.drop n) = true := by
  intro hay
  induction hay with
  | nil =>
      intro n h
      by_cases hp : needle.isPrefixOf ([] : List Char) = true
      · simp only [findSub, hp, if_true] at h
        cases h
        simpa using hp
      · simp only [findSub, hp] at h
        simp at h
  | cons c cs ih =>
      intro n h
      by_cases hp : needle.isPrefixOf (c :: cs) = true
      · simp only [findSub, hp, if_true] at h
        cases h
        simpa using hp
      · simp only [findSub, hp, if_false] at h
        cases hm : findSub needle cs with
        | none => rw [hm] at h; simp at h
        | some m =>
            rw [hm] at h
            simp at h
            obtain rfl : n = m + 1 := by omega
            simpa using ih m hm

/-- C6 counterexample: in the MCP extractor, a marker whose braces never
balance (the counter counts the open brace inside the string value) can
still produce a call: the slice up to the first close brace is the whole
valid object, so the extractor returns the string value of tool_call
rather than no call. -/
theorem claim6_counterexample :
    findSub markerL ("\x7b\"tool_call\":\"\x7b\"\x7d" : String).data = some 0
    ∧ scanBal 0 ("\x7b\"tool_call\":\"\x7b\"\x7d" : String).data = none
    ∧ MCPClient.extract_tool_call "\x7b\"tool_call\":\"\x7b\"\x7d"
        = some (.jstr "\x7b") := by
  refine ⟨?_, ?_, ?_⟩ <;> decide

/-- C6 amended: when the marker is present but the brace scan never
balances, the example extractor always returns no call (its slice
degenerates to the single open brace, which never parses); the MCP
extractor returns no call whenever no close brace exists after the
marker at all, but when a close brace exists its fallback slice can
parse (see the counterexample), so the property holds for it only in
that restricted form. -/
theorem claim6_amended_unbalanced (text : String) (start : Nat)
    (hfind : findSub markerL text.data = some start) :
    (scanBal 0 (text.data.drop start) = none →
      SimpleFC.extract_tool_call text = none)
    ∧ (findChar rbraceC (text.data.drop start) = none →
      MCPClient.extract_tool_call text = none) := by
  constructor
  · intro hscan
    have hp := findSub_prefix markerL text.data start hfind
    rw [List.isPrefixOf_iff_prefix] at hp
    obtain ⟨t, ht⟩ := hp
    have hcons : text.data.drop start = lbraceC :: ("\"tool_call\":".data ++ t) := by
      rw [← ht, markerL_cons]
      rfl
    simp only [SimpleFC.extract_tool_call, hfind, hscan, Option.getD_none]
    rw [hcons]
    simp only [List.take_succ_cons, List.take_zero]
    rw [show jsonLoads [lbraceC] = none from by decide]
  · intro hfc
    simp only [MCPClient.extract_tool_call, hfind, hfc]

/-- C6 witness: the amended statement at concrete truncated replies —
one whose braces only ever open, one with no close brace at all. -/
theorem claim6_amended_unbalanced_witness :
    SimpleFC.extract_tool_call "\x7b\"tool_call\": \x7b\x7b" = none
    ∧ MCPClient.extract_tool_call "\x7b\"tool_call\": x" = none := by
  constructor
  · exact (claim6_amended_unbalanced "\x7b\"tool_call\": \x7b\x7b" 0
      (by decide)).1 (by decide)
  · exact (claim6_amended_unbalanced "\x7b\"tool_call\": x" 0
      (by decide)).2 (by decide)

/-- C8 counterexample: the synthesized message for an unknown tool is
"Tool result: Error: Unknown tool '<name>'" with a capital U; it does
not contain the claimed literal "Error: unknown tool". -/
theorem claim8_counterexample :
    (SimpleFC.chat_with_tools [] ["echo"] (fun _ _ => .ok "r")
        (fun n => if n = 0
          then .ok "\x7b\"tool_call\": \x7b\"name\": \"bogus\", \"arguments\": \x7b\x7d\x7d\x7d"
          else .ok "done") "hi" 3).history.get? 3
      = some ⟨"user", "Tool result: Error: Unknown tool \x27bogus\x27"⟩
    ∧ containsSub "Error: unknown tool".data
        "Tool result: Error: Unknown tool \x27bogus\x27".data = false
    ∧ containsSub "Error: Unknown tool".data
        "Tool result: Error: Unknown tool \x27bogus\x27".data = true := by
  refine ⟨?_, ?_, ?_⟩ <;> decide

/-- C8 amended: dispatching a name outside the registry returns (never
raises) the failure string "Error: Unknown tool '<name>'" — capital U —
for every argument value; in the loop the synthesized next message is
"Tool result: " prefixed to that failure and the loop continues into
the next round instead of aborting. -/
theorem claim8_amended_unknown_tool (registry : List String)
    (execOr : SimpleFC.ExecOracle) (name : String) (args : JVal) (args2 : JFields)
    (model : ModelOracle) (toolLines : List String) (userMsg final : String)
    (maxLoops : Nat)
    (hreg : name ∉ registry) (hname : tameStr name = true)
    (hargs2 : tameFs args2 = true) (hloops : 1 < maxLoops)
    (hm0 : model 0 = .ok (String.mk (renderJ (topObj (callObj name args2)))))
    (hm1 : model 1 = .ok final)
    (hfin : SimpleFC.extract_tool_call final = none) :
    SimpleFC.execute_tool registry execOr (some (.jstr name)) args
        = .ok ("Error: Unknown tool \x27" ++ name ++ "\x27")
    ∧ (SimpleFC.chat_with_tools toolLines registry execOr model userMsg maxLoops).outcome
        = .ok final
    ∧ (SimpleFC.chat_with_tools toolLines registry execOr model userMsg maxLoops).history
        = [⟨"system", SimpleFC.create_system_prompt toolLines⟩, ⟨"user", userMsg⟩,
            ⟨"assistant", String.mk (renderJ (topObj (callObj name args2)))⟩,
            ⟨"user", "Tool result: " ++ ("Error: Unknown tool \x27" ++ name ++ "\x27")⟩] := by
  have hexec : SimpleFC.execute_tool registry execOr (some (.jstr name)) args
      = .ok ("Error: Unknown tool \x27" ++ name ++ "\x27") := by
    simp only [SimpleFC.execute_tool]
    rw [if_neg hreg]
  have hexec2 : ∀ a : JVal, SimpleFC.execute_tool registry execOr (some (.jstr name)) a
      = .ok ("Error: Unknown tool \x27" ++ name ++ "\x27") := by
    intro a
    simp only [SimpleFC.execute_tool]
    rw [if_neg hreg]
  have hx := extract_render [] [] (callObj name args2) (by simp)
    (tame_callObj name args2 hname hargs2)
  have hx2 : SimpleFC.extract_tool_call (String.mk (renderJ (topObj (callObj name args2))))
      = some (callObj name args2) := by
    simpa using hx.2
  obtain ⟨m, rfl⟩ : ∃ m, maxLoops = m + 2 := ⟨maxLoops - 2, by omega⟩
  simp only [callObj] at hx2 hm0
  refine ⟨hexec, ?_, ?_⟩
  · rw [SimpleFC.example_chat_unfold]
    simp only [SimpleFC.chatLoop, hm0, hx2, hm1, hfin,
      show lookupF (.fcons "name" (.jstr name)
        (.fcons "arguments" (.jobj args2) .fnil)) "name" = some (.jstr name) from rfl,
      hexec2]
  · rw [SimpleFC.example_chat_unfold]
    simp only [SimpleFC.chatLoop, hm0, hx2, hm1, hfin,
      show lookupF (.fcons "name" (.jstr name)
        (.fcons "arguments" (.jobj args2) .fnil)) "name" = some (.jstr name) from rfl,
      hexec2]
    rfl

/-- C8 witness: the amended statement at the bogus scenario. -/
theorem claim8_amended_unknown_tool_witness :
    SimpleFC.execute_tool ["echo"] (fun _ _ => .ok "r") (some (.jstr "bogus"))
        (.jobj .fnil)
      = .ok ("Error: Unknown tool \x27" ++ "bogus" ++ "\x27")
    ∧ (SimpleFC.chat_with_tools ["- echo"] ["echo"] (fun _ _ => .ok "r")
        (fun n => if n = 0
          then .ok (String.mk (renderJ (topObj (callObj "bogus" .fnil))))
          else .ok "done") "hi" 3).outcome = .ok "done" := by
  have h := claim8_amended_unknown_tool ["echo"] (fun _ _ => .ok "r") "bogus"
    (.jobj .fnil) .fnil
    (fun n => if n = 0
      then .ok (String.mk (renderJ (topObj (callObj "bogus" .fnil))))
      else .ok "done")
    ["- echo"] "hi" "done" 3
    (by simp) (by decide) (by decide) (by omega) rfl rfl (by decide)
  exact ⟨h.1, h.2.1⟩

/-- C9: a raising tool executable never propagates.  In the MCP client
the exception text becomes a failure result whose fold into history is
the user-role message "Tool result: Error: <description>", and the loop
continues to the next round; in the example dispatcher the caught
exception is wrapped as "Error executing <name>: <description>", which
is never the empty string. -/
theorem claim9_tool_failure_wrapped :
    (∀ (nameV argsV : JVal) (eps : String) (toolOr : ToolOracle),
      toolOr nameV argsV = .error eps →
      MCPClient.call_tool toolOr nameV argsV = .error eps
      ∧ MCPClient.foldToolResult (MCPClient.call_tool toolOr nameV argsV)
          = "Tool result: " ++ ("Error: " ++ eps))
    ∧ (∀ (registry : List String) (execOr : SimpleFC.ExecOracle) (name : String)
        (args : JVal) (eps : String),
      name ∈ registry → execOr name args = .error eps →
      SimpleFC.execute_tool registry execOr (some (.jstr name)) args
          = .ok ("Error executing " ++ name ++ ": " ++ eps)
      ∧ ("Error executing " ++ name ++ ": " ++ eps) ≠ "")
    ∧ (∀ (tools : List (String × String)) (maxLoops : Nat) (model : ModelOracle)
        (toolOr : ToolOracle) (name : String) (args2 : JFields)
        (userMsg final eps : String),
      tools ≠ [] → 1 < maxLoops → tameStr name = true → tameFs args2 = true →
      model 0 = .ok (String.mk (renderJ (topObj (callObj name args2)))) →
      model 1 = .ok final → MCPClient.extract_tool_call final = none →
      toolOr (.jstr name) (.jobj args2) = .error eps →
      (MCPClient.chat_with_tools tools maxLoops model toolOr userMsg).answer = final
      ∧ (MCPClient.chat_with_tools tools maxLoops model toolOr userMsg).history
          = [⟨"system", MCPClient.create_system_prompt tools⟩, ⟨"user", userMsg⟩,
              ⟨"assistant", String.mk (renderJ (topObj (callObj name args2)))⟩,
              ⟨"user", "Tool result: " ++ ("Error: " ++ eps)⟩]) := by
  refine ⟨?_, ?_, ?_⟩
  · intro nameV argsV eps toolOr h
    refine ⟨h, ?_⟩
    simp [MCPClient.call_tool, MCPClient.foldToolResult, h]
  · intro registry execOr name args eps hreg hraise
    constructor
    · simp only [SimpleFC.execute_tool]
      rw [if_pos hreg, hraise]
    · intro h
      have h2 : ("Error executing " ++ name ++ ": " ++ eps).data = ("" : String).data := by
        rw [h]
      have h3 : ("Error executing " ++ name ++ ": " ++ eps).data
          = "Error executing ".data ++ (name.data ++ (": ".data ++ eps.data)) := by
        simp [String.data_append]
      rw [h3] at h2
      have h4 : ("Error executing ").data ≠ ([] : List Char) := by decide
      simp only [show ("" : String).data = ([] : List Char) from rfl,
        List.append_eq_nil] at h2
      exact h4 h2.1
  · intro tools maxLoops model toolOr name args2 userMsg final eps
      htools hloops hname hargs2 hm0 hm1 hfin hraise
    have hx := extract_render [] [] (callObj name args2) (by simp)
      (tame_callObj name args2 hname hargs2)
    have hx1 : MCPClient.extract_tool_call
        (String.mk (renderJ (topObj (callObj name args2))))
        = some (callObj name args2) := by
      simpa using hx.1
    obtain ⟨m, rfl⟩ : ∃ m, maxLoops = m + 2 := ⟨maxLoops - 2, by omega⟩
    simp only [callObj] at hx1 hm0
    rw [MCPClient.chat_unfold tools _ model toolOr userMsg htools]
    simp only [MCPClient.chatLoop, hm0, hx1, MCPClient.pyGetItem,
      show lookupF (.fcons "name" (.jstr name)
        (.fcons "arguments" (.jobj args2) .fnil)) "name" = some (.jstr name) from rfl,
      show lookupF (.fcons "name" (.jstr name)
        (.fcons "arguments" (.jobj args2) .fnil)) "arguments"
          = some (.jobj args2) from rfl,
      MCPClient.call_tool, hraise, MCPClient.foldToolResult, hm1, hfin]
    refine ⟨?_, ?_⟩ <;> trivial

/-- C9 witness: the wrapped failure at a concrete raising tool. -/
theorem claim9_tool_failure_wrapped_witness :
    MCPClient.foldToolResult (MCPClient.call_tool
        (fun _ _ => .error "division by zero") (.jstr "calculate") (.jobj .fnil))
      = "Tool result: " ++ ("Error: " ++ "division by zero")
    ∧ SimpleFC.execute_tool ["calculate"] (fun _ _ => .error "division by zero")
        (some (.jstr "calculate")) (.jobj .fnil)
      = .ok ("Error executing " ++ "calculate" ++ ": " ++ "division by zero") := by
  have h1 := claim9_tool_failure_wrapped.1 (.jstr "calculate") (.jobj .fnil)
    "division by zero" (fun _ _ => .error "division by zero") rfl
  have h2 := claim9_tool_failure_wrapped.2.1 ["calculate"]
    (fun _ _ => .error "division by zero") "calculate" (.jobj .fnil)
    "division by zero" (by simp) rfl
  exact ⟨h1.2, h2.1⟩
